import Mathlib

/-!
Verification of the ftpd configuration and filesystem helpers
(`source/ftpConfig.cpp`, `source/fs.cpp`) against their specification.

Strings are modelled as `List Char` (the byte/char sequence of a
`std::string`); machine integers are modelled as `Nat`/`Int` with explicit
`% 2^64` (resp. `% 2^32`) where C++ unsigned overflow matters.
-/

namespace Ftpd

/-- Subset of the errno values the embedded code assigns. -/
inductive Errno where
  | einval
  | eoverflow
  | eperm
deriving DecidableEq, Repr

/-! ### Decimal printing (printf `%u` / `%PRIu64`)

The C library's decimal conversion, used by `save` (`fprintf "%u"`) and
`printSize` (`sprintf "%PRIu64"`).  Implemented with explicit fuel so that
it is structurally recursive and computes by kernel reduction; `natReprAux`
with fuel larger than `n` is fuel-independent (`natReprAux_fuel`). -/

def natReprAux : Nat → Nat → List Char → List Char
  | 0, _, acc => acc
  | f + 1, n, acc =>
    if n < 10 then Nat.digitChar n :: acc
    else natReprAux f (n / 10) (Nat.digitChar (n % 10) :: acc)

/-- Decimal representation of a natural number, most significant digit first. -/
def natRepr (n : Nat) : List Char :=
  natReprAux (n + 1) n []

theorem natReprAux_fuel (f : Nat) : ∀ (g n : Nat) (acc : List Char), n < f → n < g →
    natReprAux f n acc = natReprAux g n acc := by
  induction f with
  | zero => intro g n acc hf; omega
  | succ f ih =>
    intro g n acc hf hg
    match g with
    | g + 1 =>
      simp only [natReprAux]
      by_cases h : n < 10
      · simp [h]
      · simp only [if_neg h]
        have hd : n / 10 < n := Nat.div_lt_self (by omega) (by omega)
        exact ih g (n / 10) _ (by omega) (by omega)

theorem natReprAux_acc (f : Nat) : ∀ (n : Nat) (acc : List Char), n < f →
    natReprAux f n acc = natReprAux f n [] ++ acc := by
  induction f with
  | zero => intro n acc hf; omega
  | succ f ih =>
    intro n acc hf
    simp only [natReprAux]
    by_cases h : n < 10
    · simp [h]
    · simp only [if_neg h]
      have hd : n / 10 < n := Nat.div_lt_self (by omega) (by omega)
      rw [ih (n / 10) _ (by omega), ih (n / 10) [Nat.digitChar (n % 10)] (by omega)]
      simp

/-- Unfolding equation for `natRepr`, hiding the fuel. -/
theorem natRepr_eq (n : Nat) :
    natRepr n = if n < 10 then [Nat.digitChar n]
      else natRepr (n / 10) ++ [Nat.digitChar (n % 10)] := by
  by_cases h : n < 10
  · rw [if_pos h]
    show natReprAux (n + 1) n [] = _
    simp [natReprAux, h]
  · rw [if_neg h]
    have hd : n / 10 < n := Nat.div_lt_self (by omega) (by omega)
    show natReprAux (n + 1) n [] = _
    rw [show natReprAux (n + 1) n [] = natReprAux n (n / 10) [Nat.digitChar (n % 10)] from by
      simp [natReprAux, h]]
    rw [natReprAux_fuel n (n / 10 + 1) (n / 10) _ (by omega) (by omega),
      natReprAux_acc (n / 10 + 1) (n / 10) _ (by omega)]
    rfl

theorem digitChar_isDigit (k : Nat) (h : k < 10) : (Nat.digitChar k).isDigit = true := by
  interval_cases k <;> decide

theorem digitChar_toNat (k : Nat) (h : k < 10) : (Nat.digitChar k).toNat = 48 + k := by
  interval_cases k <;> decide

theorem natRepr_digits (n : Nat) : ∀ c ∈ natRepr n, c.isDigit = true := by
  induction n using Nat.strong_induction_on with
  | _ n ih =>
    rw [natRepr_eq]
    by_cases h : n < 10
    · simp only [if_pos h, List.mem_singleton]
      rintro c rfl
      exact digitChar_isDigit n h
    · simp only [if_neg h, List.mem_append, List.mem_singleton]
      rintro c (hc | rfl)
      · exact ih (n / 10) (Nat.div_lt_self (by omega) (by omega)) c hc
      · exact digitChar_isDigit _ (Nat.mod_lt _ (by omega))

theorem natRepr_ne_nil (n : Nat) : natRepr n ≠ [] := by
  rw [natRepr_eq]
  by_cases h : n < 10 <;> simp [h]

/-- Value denoted by a digit string, most significant digit first
(the accumulation performed by the `parseInt` loop). -/
def digitsVal (l : List Char) : Nat :=
  l.foldl (fun a c => 10 * a + (c.toNat - 48)) 0

def digitsValFrom (acc : Nat) (l : List Char) : Nat :=
  l.foldl (fun a c => 10 * a + (c.toNat - 48)) acc

theorem digitsValFrom_append (acc : Nat) (a b : List Char) :
    digitsValFrom acc (a ++ b) = digitsValFrom (digitsValFrom acc a) b := by
  simp [digitsValFrom, List.foldl_append]

theorem digitsValFrom_le (acc : Nat) (l : List Char) : acc ≤ digitsValFrom acc l := by
  induction l generalizing acc with
  | nil => simp [digitsValFrom]
  | cons c cs ih =>
    have := ih (10 * acc + (c.toNat - 48))
    simp only [digitsValFrom, List.foldl_cons] at *
    omega

theorem natRepr_val (n : Nat) : digitsVal (natRepr n) = n := by
  induction n using Nat.strong_induction_on with
  | _ n ih =>
    rw [natRepr_eq]
    by_cases h : n < 10
    · simp [if_pos h, digitsVal, digitsValFrom, digitChar_toNat n h]
    · simp only [if_neg h]
      show digitsValFrom 0 (natRepr (n / 10) ++ [Nat.digitChar (n % 10)]) = n
      rw [digitsValFrom_append]
      have h1 : digitsValFrom 0 (natRepr (n / 10)) = n / 10 :=
        ih (n / 10) (Nat.div_lt_self (by omega) (by omega))
      rw [h1]
      simp only [digitsValFrom, List.foldl_cons, List.foldl_nil]
      rw [digitChar_toNat _ (Nat.mod_lt _ (by omega))]
      omega

/-! ### The `parseInt` template of ftpConfig.cpp

`parseInt<T>` walks the string once, rejecting on a non-digit (`EINVAL`)
and on overflow past `std::numeric_limits<T>::max()` (`EOVERFLOW`), and
writes the accumulated value only on success (modelled by `Except`).
`mx` is the instantiation's `numeric_limits<T>::max()`. -/

def parseIntAux (mx : Nat) : Nat → List Char → Except Errno Nat
  | val, [] => .ok val
  | val, c :: cs =>
    if ¬ c.isDigit then .error .einval
    else if mx / 10 < val then .error .eoverflow
    else
      let val := val * 10
      let v := c.toNat - 48
      if mx - v < val then .error .eoverflow
      else parseIntAux mx (val + v) cs

def parseInt (mx : Nat) (s : List Char) : Except Errno Nat :=
  if s = [] then .error .einval else parseIntAux mx 0 s

/-- Maximum of `std::uint16_t` (the `port` instantiation). -/
def U16_MAX : Nat := 65535

/-- Maximum of `int` on the 32-bit targets (the `deflateLevel` instantiation). -/
def INT_MAX : Nat := 2147483647

theorem isDigit_toNat (c : Char) (h : c.isDigit = true) : 48 ≤ c.toNat ∧ c.toNat ≤ 57 := by
  simp only [Char.isDigit, ge_iff_le, Bool.and_eq_true, decide_eq_true_eq] at h
  exact ⟨h.1, h.2⟩

theorem digitsValFrom_cons (acc : Nat) (c : Char) (cs : List Char) :
    digitsValFrom acc (c :: cs) = digitsValFrom (10 * acc + (c.toNat - 48)) cs := rfl

theorem parseIntAux_ok (mx : Nat) (l : List Char) : ∀ acc : Nat,
    (∀ c ∈ l, c.isDigit = true) → digitsValFrom acc l ≤ mx →
    parseIntAux mx acc l = .ok (digitsValFrom acc l) := by
  induction l with
  | nil => intro acc _ _; simp [parseIntAux, digitsValFrom]
  | cons c cs ih =>
    intro acc hdig hle
    have hc : c.isDigit = true := hdig c (by simp)
    have hval : digitsValFrom acc (c :: cs) = digitsValFrom (10 * acc + (c.toNat - 48)) cs :=
      digitsValFrom_cons acc c cs
    have hstep : 10 * acc + (c.toNat - 48) ≤ digitsValFrom acc (c :: cs) := by
      rw [hval]; exact digitsValFrom_le _ _
    have hcv : c.toNat - 48 ≤ 9 := by
      have := isDigit_toNat c hc
      omega
    simp only [parseIntAux, hc, not_true_eq_false, if_false, ite_false]
    rw [if_neg (by rw [not_lt, Nat.le_div_iff_mul_le (by omega)]; omega),
      if_neg (by omega)]
    rw [hval, show acc * 10 + (c.toNat - 48) = 10 * acc + (c.toNat - 48) by ring]
    exact ih _ (fun x hx => hdig x (by simp [hx])) (by omega)

theorem parseIntAux_ok_inv (mx : Nat) (hmx : 9 ≤ mx) (l : List Char) : ∀ acc r : Nat, acc ≤ mx →
    parseIntAux mx acc l = .ok r →
    r = digitsValFrom acc l ∧ r ≤ mx ∧ ∀ c ∈ l, c.isDigit = true := by
  induction l with
  | nil =>
    intro acc r hacc h
    simp [parseIntAux] at h
    simp [digitsValFrom, ← h, hacc]
  | cons c cs ih =>
    intro acc r hacc h
    simp only [parseIntAux] at h
    by_cases hc : c.isDigit = true
    · rw [if_neg (by simp [hc])] at h
      by_cases h1 : mx / 10 < acc
      · simp [h1] at h
      · rw [if_neg h1] at h
        by_cases h2 : mx - (c.toNat - 48) < acc * 10
        · simp [h2] at h
        · rw [if_neg h2] at h
          have hcv : c.toNat - 48 ≤ 9 := by
            have := isDigit_toNat c hc
            omega
          rw [show acc * 10 + (c.toNat - 48) = 10 * acc + (c.toNat - 48) from by ring] at h
          have hacc2 : 10 * acc + (c.toNat - 48) ≤ mx := by
            have h1m : acc * 10 ≤ mx := by
              rw [← Nat.le_div_iff_mul_le (by omega)]; omega
            omega
          obtain ⟨hr, hle, hdig⟩ := ih _ r hacc2 h
          refine ⟨by rw [digitsValFrom_cons]; exact hr, hle, ?_⟩
          intro x hx
          rcases List.mem_cons.mp hx with rfl | hx
          · exact hc
          · exact hdig x hx
    · simp [hc] at h

/-- Characterization of `parseInt`: it succeeds exactly on nonempty
all-digit strings whose value fits in the type, returning that value. -/
theorem parseInt_ok_iff (mx : Nat) (hmx : 9 ≤ mx) (s : List Char) (r : Nat) :
    parseInt mx s = .ok r ↔
      s ≠ [] ∧ (∀ c ∈ s, c.isDigit = true) ∧ digitsVal s ≤ mx ∧ r = digitsVal s := by
  constructor
  · intro h
    unfold parseInt at h
    by_cases hs : s = []
    · simp [hs] at h
    · rw [if_neg hs] at h
      obtain ⟨hr, hle, hdig⟩ := parseIntAux_ok_inv mx hmx s 0 r (by omega) h
      have hdv : digitsVal s = digitsValFrom 0 s := rfl
      exact ⟨hs, hdig, by rw [hdv, ← hr]; exact hle, by rw [hdv]; exact hr⟩
  · rintro ⟨hs, hdig, hle, rfl⟩
    unfold parseInt
    rw [if_neg hs]
    exact parseIntAux_ok mx s 0 hdig hle

theorem parseInt_error (mx : Nat) (hmx : 9 ≤ mx) (s : List Char)
    (h : s = [] ∨ (∃ c ∈ s, ¬ c.isDigit = true) ∨ mx < digitsVal s) :
    ∃ e, parseInt mx s = .error e := by
  match he : parseInt mx s with
  | .error e => exact ⟨e, rfl⟩
  | .ok r =>
    obtain ⟨hs, hdig, hle, _⟩ := (parseInt_ok_iff mx hmx s r).mp he
    rcases h with h | ⟨c, hc, hcd⟩ | h
    · exact absurd h hs
    · exact absurd (hdig c hc) hcd
    · omega

/-! ### ftpConfig.cpp -/

/-- Build targets distinguished by the preprocessor in ftpConfig.cpp:
`pc` covers every target with neither `NDS` nor `_3DS` defined, `nds` is the
`NDS` build and `ctr` the `_3DS` build. -/
inductive Build where
  | pc
  | nds
  | ctr
deriving DecidableEq, Repr

/-- State owned by an `FtpConfig` object.  `getMTime` exists only on the
`_3DS` build; its member initializer lives in the (absent) header, and no
claim depends on its initial value. -/
structure FtpConfig where
  user : List Char
  pass : List Char
  port : Nat
  deflateLevel : Int
  getMTime : Bool
deriving DecidableEq, Repr

def DEFAULT_PORT : Nat := 5000

def DEFAULT_DEFLATE_LEVEL : Int := 6

/-- The `FtpConfig` constructor: default port 5000 and deflate level 6. -/
def FtpConfig.init : FtpConfig :=
  { user := [], pass := [], port := DEFAULT_PORT, deflateLevel := DEFAULT_DEFLATE_LEVEL,
    getMTime := true }

/-- Characters removed by `strip` (`" \t"`). -/
def isSpaceTab (c : Char) : Bool := c = ' ' || c = '\t'

/-- Embeds `strip`: the substring from `find_first_not_of (" \t")` to
`find_last_not_of (" \t")`, i.e. the input with the leading and trailing
run of spaces/tabs removed (empty when everything is space/tab). -/
def strip (l : List Char) : List Char :=
  ((l.dropWhile isSpaceTab).reverse.dropWhile isSpaceTab).reverse

/-- Embeds `std::string::find_first_of` for a single character. -/
def findFirstOf (c : Char) : List Char → Option Nat
  | [] => none
  | x :: xs => if x = c then some 0 else (findFirstOf c xs).map (· + 1)

/-- Embeds `FtpConfig::setUser`: `m_user = user_.substr (0, user_.find_first_of ('\0'))`. -/
def FtpConfig.setUser (cfg : FtpConfig) (u : List Char) : FtpConfig :=
  { cfg with user := match findFirstOf '\x00' u with | none => u | some i => u.take i }

/-- Embeds `FtpConfig::setPass`, identical to `setUser` for `m_pass`. -/
def FtpConfig.setPass (cfg : FtpConfig) (p : List Char) : FtpConfig :=
  { cfg with pass := match findFirstOf '\x00' p with | none => p | some i => p.take i }

/-- Embeds `FtpConfig::setPort (std::uint16_t)`.  The privileged-range check
reads `port_ < 1024 && port_ != 0` except that `port_ != 0` is compiled out
on the `NDS`/`_3DS` builds.  Returns (function result, errno written). -/
def FtpConfig.setPort (b : Build) (cfg : FtpConfig) (p : Nat) :
    (Bool × Option Errno) × FtpConfig :=
  if p < 1024 ∧ (b = .pc → p ≠ 0) then ((false, some .eperm), cfg)
  else ((true, none), { cfg with port := p })

/-- Embeds `FtpConfig::setPort (std::string const &)`. -/
def FtpConfig.setPortStr (b : Build) (cfg : FtpConfig) (s : List Char) :
    (Bool × Option Errno) × FtpConfig :=
  match parseInt U16_MAX s with
  | .error e => ((false, some e), cfg)
  | .ok p => cfg.setPort b p

/-- Embeds `FtpConfig::setDeflateLevel (int)`.  `Z_NO_COMPRESSION = 0` and
`Z_BEST_COMPRESSION = 9` are zlib's constants. -/
def FtpConfig.setDeflateLevel (cfg : FtpConfig) (level : Int) :
    (Bool × Option Errno) × FtpConfig :=
  if level < 0 ∨ 9 < level then ((false, none), cfg)
  else ((true, none), { cfg with deflateLevel := level })

/-- Embeds `FtpConfig::setDeflateLevel (std::string const &)`. -/
def FtpConfig.setDeflateLevelStr (cfg : FtpConfig) (s : List Char) :
    (Bool × Option Errno) × FtpConfig :=
  match parseInt INT_MAX s with
  | .error e => ((false, some e), cfg)
  | .ok v => cfg.setDeflateLevel (v : Int)

/-- C's `int` to `unsigned` conversion applied by `fprintf ("%u", ...)`. -/
def u32Of (i : Int) : Nat := (i % (2 ^ 32)).toNat

/-- Embeds the byte stream `FtpConfig::save` writes on success (directory
creation and `fopen` are external and can only fail the call as a whole).
Note the missing newline after the `deflateLevel` line, faithful to the
source; on the `_3DS` build the `mtime` line is glued to it. -/
def FtpConfig.save (b : Build) (cfg : FtpConfig) : List Char :=
  (if cfg.user ≠ [] then "user=".data ++ cfg.user ++ ['\n'] else []) ++
  (if cfg.pass ≠ [] then "pass=".data ++ cfg.pass ++ ['\n'] else []) ++
  "port=".data ++ natRepr cfg.port ++ ['\n'] ++
  "deflateLevel=".data ++ natRepr (u32Of cfg.deflateLevel) ++
  (if b = .ctr then "mtime=".data ++ natRepr (if cfg.getMTime then 1 else 0) ++ ['\n']
   else [])

/-- Modelled from the spec: `fs::File::readLine` is declared in the (absent)
header `fs.h` and its body is not among the provided sources.  The
configuration provider "persists/loads" the key=value lines `save` writes,
so `readLine` is modelled as returning the next line with its `'\n'`
terminator removed (the final line may be unterminated) together with the
remaining stream, and the empty string at end of file. -/
def readLine (cs : List Char) : List Char × List Char :=
  (cs.takeWhile (· ≠ '\n'), (cs.dropWhile (· ≠ '\n')).drop 1)

/-- Loop state of `FtpConfig::load`: the config being filled in
(`m_user`/`m_pass`/`m_getMTime` are assigned directly) and the local
variables `port` and `deflateLevel`. -/
structure LoadSt where
  cfg : FtpConfig
  port : Nat
  level : Int
deriving DecidableEq, Repr

/-- Key/value dispatch of the `load` line loop, after the line has been
split at its first `'='` and both parts stripped. -/
def loadStepKV (b : Build) (st : LoadSt) (key val : List Char) : LoadSt :=
  if key = [] ∨ val = [] then st
  else if key = "user".data then { st with cfg := { st.cfg with user := val } }
  else if key = "pass".data then { st with cfg := { st.cfg with pass := val } }
  else if key = "port".data then
    match parseInt U16_MAX val with
    | .ok v => { st with port := v }
    | .error _ => st
  else if key = "deflateLevel".data then
    match parseInt INT_MAX val with
    | .ok v => { st with level := (v : Int) }
    | .error _ => st
  else if b = .ctr ∧ key = "mtime".data then
    if val = "0".data then { st with cfg := { st.cfg with getMTime := false } }
    else if val = "1".data then { st with cfg := { st.cfg with getMTime := true } }
    else st
  else st

/-- Body of the `load` line loop for one (nonempty) line. -/
def loadStep (b : Build) (st : LoadSt) (line : List Char) : LoadSt :=
  match findFirstOf '=' line with
  | none => st
  | some pos => loadStepKV b st (strip (line.take pos)) (strip (line.drop (pos + 1)))

/-- The `load` line loop (`while (!(line = fp.readLine ()).empty ())`),
with explicit fuel so that it is structurally recursive; every line
consumes at least one character, so fuel `length + 1` is always enough
(`loadLoop_fuel`). -/
def loadLoop (b : Build) : Nat → LoadSt → List Char → LoadSt
  | 0, st, _ => st
  | f + 1, st, cs =>
    let line := (readLine cs).1
    let rest := (readLine cs).2
    if line = [] then st else loadLoop b f (loadStep b st line) rest

/-- Embeds `FtpConfig::load`: `none` models an unopenable file.  After the
loop the accumulated `port` and `deflateLevel` values are funnelled through
the checked setters, their results ignored. -/
def FtpConfig.load (b : Build) (file : Option (List Char)) : FtpConfig :=
  match file with
  | none => FtpConfig.init
  | some content =>
    let st := loadLoop b (content.length + 1)
      { cfg := FtpConfig.init, port := DEFAULT_PORT, level := DEFAULT_DEFLATE_LEVEL } content
    ((st.cfg.setPort b st.port).2.setDeflateLevel st.level).2

/-! ### fs.cpp — printSize

All arithmetic in `fs::printSize` is on `std::uint64_t`; multiplications
are reduced `% 2^64` where the C++ computation can wrap (notably
`100 * EiB`, which wraps to `4 * 2^60`). -/

def U64_MOD : Nat := 18446744073709551616

def KiB : Nat := 1024

def MiB : Nat := 1024 * KiB

def GiB : Nat := 1024 * MiB

def TiB : Nat := 1024 * GiB

def PiB : Nat := 1024 * TiB

def EiB : Nat := 1024 * PiB

/-- Rendering of printf `%02u` for the two-digit fractional part. -/
def pad2 (m : Nat) : List Char :=
  if m < 10 then '0' :: natRepr m else natRepr m

/-- One iteration of the unit loop in `fs::printSize`: the three threshold
checks for a unit, returning the formatted string when one fires. -/
def printSizeUnit (name : List Char) (bin : Nat) (size : Nat) : Option (List Char) :=
  let whole := size / bin
  if 100 * bin % U64_MOD ≤ size then some (natRepr whole ++ name)
  else
    let frac := size - whole * bin
    if 10 * bin % U64_MOD ≤ size then
      some (natRepr whole ++ '.' :: natRepr (frac * 10 % U64_MOD / bin) ++ name)
    else if 1000 * (bin / KiB) % U64_MOD ≤ size then
      some (natRepr whole ++ '.' :: pad2 (frac * 100 % U64_MOD / bin) ++ name)
    else none

/-- Embeds `fs::printSize`: the unit loop from `EiB` down to `KiB`, falling
back to the bare decimal representation. -/
def printSize (size : Nat) : List Char :=
  match printSizeUnit "EiB".data EiB size with
  | some s => s
  | none =>
  match printSizeUnit "PiB".data PiB size with
  | some s => s
  | none =>
  match printSizeUnit "TiB".data TiB size with
  | some s => s
  | none =>
  match printSizeUnit "GiB".data GiB size with
  | some s => s
  | none =>
  match printSizeUnit "MiB".data MiB size with
  | some s => s
  | none =>
  match printSizeUnit "KiB".data KiB size with
  | some s => s
  | none => natRepr size

/-- Unit (suffix, size) at which the `printSize` loop returns, when any. -/
def selectedUnit (size : Nat) : Option (List Char × Nat) :=
  if (printSizeUnit "EiB".data EiB size).isSome then some ("EiB".data, EiB)
  else if (printSizeUnit "PiB".data PiB size).isSome then some ("PiB".data, PiB)
  else if (printSizeUnit "TiB".data TiB size).isSome then some ("TiB".data, TiB)
  else if (printSizeUnit "GiB".data GiB size).isSome then some ("GiB".data, GiB)
  else if (printSizeUnit "MiB".data MiB size).isSome then some ("MiB".data, MiB)
  else if (printSizeUnit "KiB".data KiB size).isSome then some ("KiB".data, KiB)
  else none

/-- Number of fractional digits in a `printSize` result: the run of digits
directly after the last `'.'`, and 0 when there is no `'.'`. -/
def fracDigitCount (l : List Char) : Nat :=
  if '.' ∈ l then (((l.reverse.takeWhile (· ≠ '.')).reverse).takeWhile Char.isDigit).length
  else 0

/-! ### fs.cpp — readAll / writeAll

The underlying `fs::File::read`/`write` wrap `fread`/`fwrite` and are
external; they are modelled by an oracle mapping (bytes already
transferred, bytes requested) to the `ssize_t` return of that call.  The
buffer pointer `p` always sits `bytes` past the start, so the first oracle
argument is exactly the resume offset. -/

/-- Embeds the loop of `fs::File::writeAll` (and, identically,
`fs::File::readAll`). -/
def writeAllGo (o : Nat → Nat → Int) (size : Nat) (bytes : Nat) : Bool :=
  if h : bytes < size then
    let rc := o bytes (size - bytes)
    if hrc : rc ≤ 0 then false
    else writeAllGo o size (bytes + rc.toNat)
  else true
termination_by size - bytes
decreasing_by
  simp only [not_le] at hrc
  omega

/-- Embeds `fs::File::writeAll`, which starts the loop at zero bytes. -/
def writeAll (o : Nat → Nat → Int) (size : Nat) : Bool := writeAllGo o size 0

/-- Embeds the loop of `fs::File::readAll`; the source duplicates the
`writeAll` loop verbatim with `read` in place of `write`. -/
def readAllGo (o : Nat → Nat → Int) (size : Nat) (bytes : Nat) : Bool :=
  if h : bytes < size then
    let rc := o bytes (size - bytes)
    if hrc : rc ≤ 0 then false
    else readAllGo o size (bytes + rc.toNat)
  else true
termination_by size - bytes
decreasing_by
  simp only [not_le] at hrc
  omega

/-- Embeds `fs::File::readAll`. -/
def readAll (o : Nat → Nat → Int) (size : Nat) : Bool := readAllGo o size 0

/-- Instrumented, fuel-bounded run of the `writeAll` loop: returns the
result together with the trace of underlying calls
(offset, requested, returned), or `none` if the fuel runs out.  Fuel
`size + 1` always suffices (each iteration transfers at least one byte). -/
def writeAllT (o : Nat → Nat → Int) (size : Nat) : Nat → Nat → Option (Bool × List (Nat × Nat × Int))
  | 0, _ => none
  | f + 1, bytes =>
    if bytes < size then
      let req := size - bytes
      let rc := o bytes req
      if rc ≤ 0 then some (false, [(bytes, req, rc)])
      else
        match writeAllT o size f (bytes + rc.toNat) with
        | none => none
        | some (b, t) => some (b, (bytes, req, rc) :: t)
    else some (true, [])

/-- Instrumented, fuel-bounded run of the `readAll` loop. -/
def readAllT (o : Nat → Nat → Int) (size : Nat) : Nat → Nat → Option (Bool × List (Nat × Nat × Int))
  | 0, _ => none
  | f + 1, bytes =>
    if bytes < size then
      let req := size - bytes
      let rc := o bytes req
      if rc ≤ 0 then some (false, [(bytes, req, rc)])
      else
        match readAllT o size f (bytes + rc.toNat) with
        | none => none
        | some (b, t) => some (b, (bytes, req, rc) :: t)
    else some (true, [])

/-- Resumption discipline of a call trace: starting from `bytes` already
transferred, every recorded call gives the offset `bytes` and requests
exactly the remaining `size - bytes`, and the next call resumes past the
returned count. -/
def Chained (size : Nat) : Nat → List (Nat × Nat × Int) → Prop
  | _, [] => True
  | bytes, e :: rest =>
    e.1 = bytes ∧ e.2.1 = size - bytes ∧ Chained size (bytes + e.2.2.toNat) rest

/-- Total number of bytes a call trace transferred. -/
def sumRc (t : List (Nat × Nat × Int)) : Nat :=
  (t.map (fun e => e.2.2.toNat)).sum

/-! ### Generic list helpers -/

theorem takeWhile_all {α : Type} {p : α → Bool} {l : List α} (h : ∀ x ∈ l, p x = true) :
    l.takeWhile p = l := by
  induction l with
  | nil => rfl
  | cons x xs ih =>
    rw [List.takeWhile_cons, if_pos (h x (by simp)), ih (fun y hy => h y (by simp [hy]))]

theorem dropWhile_all {α : Type} {p : α → Bool} {l : List α} (h : ∀ x ∈ l, p x = true) :
    l.dropWhile p = [] := by
  induction l with
  | nil => rfl
  | cons x xs ih =>
    rw [List.dropWhile_cons, if_pos (h x (by simp)), ih (fun y hy => h y (by simp [hy]))]

theorem takeWhile_append_stop {α : Type} {p : α → Bool} {a : List α} {c : α} (b : List α)
    (ha : ∀ x ∈ a, p x = true) (hc : p c = false) :
    (a ++ c :: b).takeWhile p = a := by
  rw [List.takeWhile_append_of_pos ha, List.takeWhile_cons, hc]
  simp

theorem dropWhile_append_stop {α : Type} {p : α → Bool} {a : List α} {c : α} (b : List α)
    (ha : ∀ x ∈ a, p x = true) (hc : p c = false) :
    (a ++ c :: b).dropWhile p = c :: b := by
  rw [List.dropWhile_append_of_pos ha, List.dropWhile_cons, hc]
  simp

theorem take_append_len {α : Type} (a : List α) (r : List α) :
    (a ++ r).take a.length = a := List.take_left a r

theorem drop_append_len_succ {α : Type} (a : List α) (c : α) (r : List α) :
    (a ++ c :: r).drop (a.length + 1) = r := by
  have : a ++ c :: r = (a ++ [c]) ++ r := by simp
  rw [this, show a.length + 1 = (a ++ [c]).length by simp, List.drop_left]

theorem findFirstOf_not_mem {c : Char} {l : List Char} (h : c ∉ l) :
    findFirstOf c l = none := by
  induction l with
  | nil => rfl
  | cons x xs ih =>
    rw [findFirstOf, if_neg (by rintro rfl; exact h (by simp)),
      ih (fun hx => h (by simp [hx]))]
    rfl

theorem findFirstOf_append_cons {c : Char} {k : List Char} (v : List Char) (h : c ∉ k) :
    findFirstOf c (k ++ c :: v) = some k.length := by
  induction k with
  | nil => simp [findFirstOf]
  | cons x xs ih =>
    rw [List.cons_append, findFirstOf, if_neg (by rintro rfl; exact h (by simp)),
      ih (fun hx => h (by simp [hx]))]
    rfl

theorem take_findFirstOf (c : Char) (l : List Char) :
    (match findFirstOf c l with | none => l | some i => l.take i) =
      l.takeWhile (· ≠ c) := by
  induction l with
  | nil => rfl
  | cons x xs ih =>
    by_cases h : x = c
    · subst h
      simp [findFirstOf, List.takeWhile_cons]
    · rw [List.takeWhile_cons, if_pos (by simp [h])]
      simp only [findFirstOf, if_neg h]
      cases hf : findFirstOf c xs with
      | none =>
        rw [hf] at ih
        simpa using ih
      | some i =>
        rw [hf] at ih
        simpa using ih

/-- C9: after `setUser(s)` the stored user is the prefix of `s` up to (and
not including) the first NUL byte — all of `s` when `s` has no NUL — and
nothing else changes; `setPass` behaves identically for the password. -/
theorem setUser_setPass_nul_truncation (cfg : FtpConfig) (s : List Char) :
    (cfg.setUser s).user = s.takeWhile (· ≠ '\x00') ∧
    (cfg.setUser s).pass = cfg.pass ∧
    (cfg.setPass s).pass = s.takeWhile (· ≠ '\x00') ∧
    (cfg.setPass s).user = cfg.user ∧
    ('\x00' ∉ s → (cfg.setUser s).user = s ∧ (cfg.setPass s).pass = s) := by
  refine ⟨take_findFirstOf '\x00' s, rfl, take_findFirstOf '\x00' s, rfl, fun h => ?_⟩
  have : s.takeWhile (· ≠ '\x00') = s :=
    takeWhile_all (fun x hx => by simp; rintro rfl; exact h hx)
  exact ⟨(take_findFirstOf '\x00' s).trans this, (take_findFirstOf '\x00' s).trans this⟩

/-- Closed instance of `setUser_setPass_nul_truncation`, discharging its
NUL-freeness hypothesis at a concrete input. -/
theorem setUser_setPass_nul_truncation_witness :
    (FtpConfig.init.setUser ['a', 'b']).user = ['a', 'b'] ∧
    (FtpConfig.init.setPass ['a', '\x00', 'b']).pass = ['a'] := by
  refine ⟨((setUser_setPass_nul_truncation FtpConfig.init ['a', 'b']).2.2.2.2 (by decide)).1, ?_⟩
  have h := (setUser_setPass_nul_truncation FtpConfig.init ['a', '\x00', 'b']).2.2.1
  rw [h]
  decide

/-! ### C1 — setDeflateLevel validation -/

/-- C1: `setDeflateLevel (int)` rejects every level outside 0..9 and leaves
the stored level unchanged, and accepts every level in 0..9;
`setDeflateLevel (string)` rejects the empty string, any string with a
non-digit, and any all-digit string denoting a value above 9 (leaving the
level unchanged), and accepts all-digit strings denoting 0..9. -/
theorem setDeflateLevel_spec (cfg : FtpConfig) (level : Int) (s : List Char) :
    ((level < 0 ∨ 9 < level) → cfg.setDeflateLevel level = ((false, none), cfg)) ∧
    (0 ≤ level → level ≤ 9 →
      cfg.setDeflateLevel level = ((true, none), { cfg with deflateLevel := level })) ∧
    ((s = [] ∨ (∃ c ∈ s, ¬ c.isDigit = true) ∨
        ((∀ c ∈ s, c.isDigit = true) ∧ 9 < digitsVal s)) →
      (cfg.setDeflateLevelStr s).1.1 = false ∧ (cfg.setDeflateLevelStr s).2 = cfg) ∧
    ((∀ c ∈ s, c.isDigit = true) → s ≠ [] → digitsVal s ≤ 9 →
      cfg.setDeflateLevelStr s =
        ((true, none), { cfg with deflateLevel := (digitsVal s : Int) })) := by
  refine ⟨fun h => ?_, fun h0 h9 => ?_, fun h => ?_, fun hdig hne hle => ?_⟩
  · unfold FtpConfig.setDeflateLevel
    rw [if_pos h]
  · unfold FtpConfig.setDeflateLevel
    rw [if_neg (by omega)]
  · unfold FtpConfig.setDeflateLevelStr
    cases hp : parseInt INT_MAX s with
    | error e => simp
    | ok v =>
      obtain ⟨hne, hdig, hval, rfl⟩ := (parseInt_ok_iff INT_MAX (by norm_num [INT_MAX]) s v).mp hp
      rcases h with rfl | ⟨c, hc, hcd⟩ | ⟨_, h9⟩
      · exact absurd rfl hne
      · exact absurd (hdig c hc) hcd
      · dsimp only [FtpConfig.setDeflateLevel]
        rw [if_pos (Or.inr (by exact_mod_cast h9))]
        exact ⟨rfl, rfl⟩
  · unfold FtpConfig.setDeflateLevelStr
    rw [(parseInt_ok_iff INT_MAX (by norm_num [INT_MAX]) s (digitsVal s)).mpr
      ⟨hne, hdig, by norm_num [INT_MAX]; omega, rfl⟩]
    dsimp only [FtpConfig.setDeflateLevel]
    rw [if_neg (by push_neg; constructor <;> [positivity; exact_mod_cast hle])]

/-- Closed instance of `setDeflateLevel_spec`: rejection at level 10 and at
the strings "x" and "10", acceptance at level 5 and at the string "7". -/
theorem setDeflateLevel_spec_witness :
    FtpConfig.init.setDeflateLevel 10 = ((false, none), FtpConfig.init) ∧
    FtpConfig.init.setDeflateLevel 5 =
      ((true, none), { FtpConfig.init with deflateLevel := 5 }) ∧
    (FtpConfig.init.setDeflateLevelStr ['x']).1.1 = false ∧
    (FtpConfig.init.setDeflateLevelStr ['1', '0']).2 = FtpConfig.init ∧
    FtpConfig.init.setDeflateLevelStr ['7'] =
      ((true, none), { FtpConfig.init with deflateLevel := 7 }) := by
  refine ⟨(setDeflateLevel_spec FtpConfig.init 10 ['x']).1 (by omega),
    (setDeflateLevel_spec FtpConfig.init 5 ['x']).2.1 (by omega) (by omega),
    ((setDeflateLevel_spec FtpConfig.init 5 ['x']).2.2.1 (by right; left; exact ⟨'x', by decide⟩)).1,
    ((setDeflateLevel_spec FtpConfig.init 5 ['1', '0']).2.2.1 (by right; right; refine ⟨?_, ?_⟩ <;> decide)).2,
    ?_⟩
  have h := (setDeflateLevel_spec FtpConfig.init 5 ['7']).2.2.2 (by decide) (by decide) (by decide)
  rw [h]
  decide

/-! ### Reachability of configuration states (C4, C8)

Every public mutating operation of `FtpConfig`: construction/`create`,
`load`, the setters (`save` does not modify the object, and `setGetMTime`
exists on the `_3DS` build). -/

inductive Reachable (b : Build) : FtpConfig → Prop where
  | init : Reachable b FtpConfig.init
  | load (file : Option (List Char)) : Reachable b (FtpConfig.load b file)
  | setUser (u : List Char) {cfg} : Reachable b cfg → Reachable b (cfg.setUser u)
  | setPass (p : List Char) {cfg} : Reachable b cfg → Reachable b (cfg.setPass p)
  | setPort (p : Nat) {cfg} : p ≤ U16_MAX → Reachable b cfg →
      Reachable b (cfg.setPort b p).2
  | setPortStr (s : List Char) {cfg} : Reachable b cfg →
      Reachable b (cfg.setPortStr b s).2
  | setDeflateLevel (l : Int) {cfg} : Reachable b cfg →
      Reachable b (cfg.setDeflateLevel l).2
  | setDeflateLevelStr (s : List Char) {cfg} : Reachable b cfg →
      Reachable b (cfg.setDeflateLevelStr s).2
  | setGetMTime (m : Bool) {cfg} : Reachable b cfg →
      Reachable b { cfg with getMTime := m }

theorem loadStepKV_cfg_fields (b : Build) (st : LoadSt) (key val : List Char) :
    (loadStepKV b st key val).cfg.port = st.cfg.port ∧
    (loadStepKV b st key val).cfg.deflateLevel = st.cfg.deflateLevel := by
  unfold loadStepKV
  split
  · exact ⟨rfl, rfl⟩
  split
  · exact ⟨rfl, rfl⟩
  split
  · exact ⟨rfl, rfl⟩
  split
  · split <;> exact ⟨rfl, rfl⟩
  split
  · split <;> exact ⟨rfl, rfl⟩
  split
  · split
    · exact ⟨rfl, rfl⟩
    split <;> exact ⟨rfl, rfl⟩
  · exact ⟨rfl, rfl⟩

theorem loadStep_cfg_fields (b : Build) (st : LoadSt) (line : List Char) :
    (loadStep b st line).cfg.port = st.cfg.port ∧
    (loadStep b st line).cfg.deflateLevel = st.cfg.deflateLevel := by
  unfold loadStep
  cases findFirstOf '=' line with
  | none => exact ⟨rfl, rfl⟩
  | some pos => exact loadStepKV_cfg_fields b st _ _

theorem loadLoop_cfg_fields (b : Build) (f : Nat) : ∀ (st : LoadSt) (cs : List Char),
    (loadLoop b f st cs).cfg.port = st.cfg.port ∧
    (loadLoop b f st cs).cfg.deflateLevel = st.cfg.deflateLevel := by
  induction f with
  | zero => intro st cs; exact ⟨rfl, rfl⟩
  | succ f ih =>
    intro st cs
    have hu : loadLoop b (f + 1) st cs =
        if (readLine cs).1 = [] then st
        else loadLoop b f (loadStep b st (readLine cs).1) (readLine cs).2 := rfl
    rw [hu]
    split
    · exact ⟨rfl, rfl⟩
    · obtain ⟨h1, h2⟩ := ih (loadStep b st (readLine cs).1) (readLine cs).2
      obtain ⟨h3, h4⟩ := loadStep_cfg_fields b st (readLine cs).1
      exact ⟨h1.trans h3, h2.trans h4⟩

theorem setPort_deflate (b : Build) (cfg : FtpConfig) (p : Nat) :
    (cfg.setPort b p).2.deflateLevel = cfg.deflateLevel := by
  unfold FtpConfig.setPort
  split <;> rfl

theorem setDeflate_range (cfg : FtpConfig) (l : Int)
    (h : 0 ≤ cfg.deflateLevel ∧ cfg.deflateLevel ≤ 9) :
    0 ≤ (cfg.setDeflateLevel l).2.deflateLevel ∧ (cfg.setDeflateLevel l).2.deflateLevel ≤ 9 := by
  unfold FtpConfig.setDeflateLevel
  split
  · exact h
  · next hcond => simp at hcond ⊢; omega

/-- Deflate-level range invariant over all reachable states (helper for the
claim theorems below). -/
theorem reachable_deflate {b : Build} {cfg : FtpConfig} (h : Reachable b cfg) :
    0 ≤ cfg.deflateLevel ∧ cfg.deflateLevel ≤ 9 := by
  induction h with
  | init => exact ⟨by norm_num [FtpConfig.init, DEFAULT_DEFLATE_LEVEL],
      by norm_num [FtpConfig.init, DEFAULT_DEFLATE_LEVEL]⟩
  | load file =>
    cases file with
    | none => exact ⟨by norm_num [FtpConfig.load, FtpConfig.init, DEFAULT_DEFLATE_LEVEL],
        by norm_num [FtpConfig.load, FtpConfig.init, DEFAULT_DEFLATE_LEVEL]⟩
    | some content =>
      unfold FtpConfig.load
      apply setDeflate_range
      rw [setPort_deflate]
      obtain ⟨-, h2⟩ := loadLoop_cfg_fields b (content.length + 1)
        { cfg := FtpConfig.init, port := DEFAULT_PORT, level := DEFAULT_DEFLATE_LEVEL } content
      rw [h2]
      exact ⟨by norm_num [FtpConfig.init, DEFAULT_DEFLATE_LEVEL],
        by norm_num [FtpConfig.init, DEFAULT_DEFLATE_LEVEL]⟩
  | setUser u _ ih => exact ih
  | setPass p _ ih => exact ih
  | setPort p _ _ ih => rw [setPort_deflate]; exact ih
  | setPortStr s _ ih =>
    unfold FtpConfig.setPortStr
    cases parseInt U16_MAX s with
    | error e => exact ih
    | ok v => rw [setPort_deflate]; exact ih
  | setDeflateLevel l _ ih => exact setDeflate_range _ l ih
  | setDeflateLevelStr s _ ih =>
    unfold FtpConfig.setDeflateLevelStr
    cases parseInt INT_MAX s with
    | error e => exact ih
    | ok v => exact setDeflate_range _ _ ih
  | setGetMTime m _ ih => exact ih

/-- C4: in every state reachable through the public `FtpConfig`
operations, the stored deflate level lies in 0..9, on every build. -/
theorem deflateLevel_invariant (b : Build) (cfg : FtpConfig) (h : Reachable b cfg) :
    0 ≤ cfg.deflateLevel ∧ cfg.deflateLevel ≤ 9 :=
  reachable_deflate h

/-- Closed instance of `deflateLevel_invariant` at the freshly constructed
configuration. -/
theorem deflateLevel_invariant_witness :
    0 ≤ FtpConfig.init.deflateLevel ∧ FtpConfig.init.deflateLevel ≤ 9 :=
  deflateLevel_invariant Build.pc FtpConfig.init Reachable.init

/-! ### C8 — setPort validation -/

theorem setDeflate_port (cfg : FtpConfig) (l : Int) :
    (cfg.setDeflateLevel l).2.port = cfg.port := by
  unfold FtpConfig.setDeflateLevel
  split <;> rfl

theorem setPort_cases (b : Build) (cfg : FtpConfig) (p : Nat) :
    (cfg.setPort b p).2 = cfg ∨
    ((cfg.setPort b p).2 = { cfg with port := p } ∧ (1024 ≤ p ∨ (b = .pc ∧ p = 0))) := by
  unfold FtpConfig.setPort
  by_cases hcond : p < 1024 ∧ (b = .pc → p ≠ 0)
  · rw [if_pos hcond]
    exact Or.inl rfl
  · rw [if_neg hcond]
    push_neg at hcond
    refine Or.inr ⟨rfl, ?_⟩
    by_cases hlt : p < 1024
    · exact Or.inr (hcond hlt)
    · exact Or.inl (by omega)

/-- Port-range invariant over all reachable states (helper). -/
theorem reachable_port {b : Build} {cfg : FtpConfig} (h : Reachable b cfg) :
    cfg.port = 5000 ∨ 1024 ≤ cfg.port ∨ (b = .pc ∧ cfg.port = 0) := by
  induction h with
  | init => exact Or.inl rfl
  | load file =>
    cases file with
    | none => exact Or.inl rfl
    | some content =>
      unfold FtpConfig.load
      rw [setDeflate_port]
      obtain ⟨h1, -⟩ := loadLoop_cfg_fields b (content.length + 1)
        { cfg := FtpConfig.init, port := DEFAULT_PORT, level := DEFAULT_DEFLATE_LEVEL } content
      rcases setPort_cases b (loadLoop b (content.length + 1)
          { cfg := FtpConfig.init, port := DEFAULT_PORT, level := DEFAULT_DEFLATE_LEVEL }
          content).cfg (loadLoop b (content.length + 1)
          { cfg := FtpConfig.init, port := DEFAULT_PORT, level := DEFAULT_DEFLATE_LEVEL }
          content).port with hc | ⟨hc, hrange⟩
      · rw [hc, h1]
        exact Or.inl rfl
      · rw [hc]
        rcases hrange with hr | hr
        · exact Or.inr (Or.inl hr)
        · exact Or.inr (Or.inr hr)
  | setUser u _ ih => exact ih
  | setPass p _ ih => exact ih
  | setPort p _ _ ih =>
    rcases setPort_cases b _ p with hc | ⟨hc, hrange⟩
    · rw [hc]; exact ih
    · rw [hc]
      rcases hrange with hr | hr
      · exact Or.inr (Or.inl hr)
      · exact Or.inr (Or.inr hr)
  | setPortStr s _ ih =>
    unfold FtpConfig.setPortStr
    cases parseInt U16_MAX s with
    | error e => exact ih
    | ok v =>
      rcases setPort_cases b _ v with hc | ⟨hc, hrange⟩
      · rw [hc]; exact ih
      · rw [hc]
        rcases hrange with hr | hr
        · exact Or.inr (Or.inl hr)
        · exact Or.inr (Or.inr hr)
  | setDeflateLevel l _ ih => rw [setDeflate_port]; exact ih
  | setDeflateLevelStr s _ ih =>
    unfold FtpConfig.setDeflateLevelStr
    cases parseInt INT_MAX s with
    | error e => exact ih
    | ok v => rw [setDeflate_port]; exact ih
  | setGetMTime m _ ih => exact ih

/-- C8 (amended): ports 1..1023 are rejected with `EPERM` on every build;
port 0 is rejected on the NDS/3DS builds and accepted on the other builds
(the opposite of the claim's parenthetical); every port of at least 1024
is accepted; hence a reachable port is the default 5000, at least 1024, or
0 on builds other than NDS/3DS. -/
theorem setPort_range_spec (b : Build) (cfg : FtpConfig) (p : Nat) :
    (1 ≤ p → p ≤ 1023 → cfg.setPort b p = ((false, some .eperm), cfg)) ∧
    (p = 0 → b ≠ .pc → cfg.setPort b p = ((false, some .eperm), cfg)) ∧
    (p = 0 → b = .pc → cfg.setPort b p = ((true, none), { cfg with port := 0 })) ∧
    (1024 ≤ p → cfg.setPort b p = ((true, none), { cfg with port := p })) ∧
    (Reachable b cfg → cfg.port = 5000 ∨ 1024 ≤ cfg.port ∨ (b = .pc ∧ cfg.port = 0)) := by
  refine ⟨fun h1 h2 => ?_, fun h0 hb => ?_, fun h0 hb => ?_, fun h => ?_,
    fun h => reachable_port h⟩
  · unfold FtpConfig.setPort
    rw [if_pos ⟨by omega, fun _ => by omega⟩]
  · unfold FtpConfig.setPort
    rw [if_pos ⟨by omega, fun hpc => absurd hpc hb⟩]
  · subst h0
    unfold FtpConfig.setPort
    rw [if_neg (by rintro ⟨-, hi⟩; exact hi hb rfl)]
  · unfold FtpConfig.setPort
    rw [if_neg (by omega)]

/-- Counterexample to C8 as stated: on a build other than NDS/3DS,
`setPort (0)` succeeds and stores port 0, rather than failing with
`EPERM` as the claim asserts. -/
theorem setPort_zero_pc_cex :
    FtpConfig.init.setPort Build.pc 0 = ((true, none), { FtpConfig.init with port := 0 }) ∧
    ¬ (FtpConfig.init.setPort Build.pc 0).1.1 = false := by
  decide

/-- Closed instance of `setPort_range_spec`, discharging each hypothesis at
concrete ports and at the freshly constructed configuration. -/
theorem setPort_range_spec_witness :
    FtpConfig.init.setPort Build.pc 80 = ((false, some .eperm), FtpConfig.init) ∧
    FtpConfig.init.setPort Build.nds 0 = ((false, some .eperm), FtpConfig.init) ∧
    FtpConfig.init.setPort Build.pc 0 = ((true, none), { FtpConfig.init with port := 0 }) ∧
    FtpConfig.init.setPort Build.ctr 8021 = ((true, none), { FtpConfig.init with port := 8021 }) ∧
    (FtpConfig.init.port = 5000 ∨ 1024 ≤ FtpConfig.init.port ∨
      (Build.nds = Build.pc ∧ FtpConfig.init.port = 0)) :=
  ⟨(setPort_range_spec Build.pc FtpConfig.init 80).1 (by omega) (by omega),
    (setPort_range_spec Build.nds FtpConfig.init 0).2.1 rfl (by decide),
    (setPort_range_spec Build.pc FtpConfig.init 0).2.2.1 rfl rfl,
    (setPort_range_spec Build.ctr FtpConfig.init 8021).2.2.2.1 (by omega),
    (setPort_range_spec Build.nds FtpConfig.init 0).2.2.2.2 Reachable.init⟩

/-! ### Lemmas on readLine / loadLoop / loadStep -/

theorem readLine_noNewline {l : List Char} (h : ∀ c ∈ l, ¬ c = '\n') :
    readLine l = (l, []) := by
  unfold readLine
  rw [takeWhile_all (fun x hx => by simpa using h x hx),
    dropWhile_all (fun x hx => by simpa using h x hx)]
  rfl

theorem readLine_cons {l : List Char} (rest : List Char) (h : ∀ c ∈ l, ¬ c = '\n') :
    readLine (l ++ '\n' :: rest) = (l, rest) := by
  unfold readLine
  rw [takeWhile_append_stop rest (fun x hx => by simpa using h x hx) (by decide),
    dropWhile_append_stop rest (fun x hx => by simpa using h x hx) (by decide)]
  simp

theorem readLine_rest_lt (cs : List Char) (h : (readLine cs).1 ≠ []) :
    (readLine cs).2.length < cs.length := by
  have hsplit := List.takeWhile_append_dropWhile (· ≠ '\n') cs
  have hlen : (cs.takeWhile (· ≠ '\n')).length + (cs.dropWhile (· ≠ '\n')).length =
      cs.length := by
    rw [← List.length_append, hsplit]
  have hpos : 0 < (cs.takeWhile (· ≠ '\n')).length := List.length_pos.mpr h
  have : (readLine cs).2.length = (cs.dropWhile (· ≠ '\n')).length - 1 := by
    unfold readLine
    simp
  omega

theorem loadLoop_fuel (b : Build) (f : Nat) : ∀ (g : Nat) (st : LoadSt) (cs : List Char),
    cs.length < f → cs.length < g → loadLoop b f st cs = loadLoop b g st cs := by
  induction f with
  | zero => intro g st cs hf; omega
  | succ f ih =>
    intro g st cs hf hg
    match g with
    | g + 1 =>
      have hu1 : loadLoop b (f + 1) st cs =
          if (readLine cs).1 = [] then st
          else loadLoop b f (loadStep b st (readLine cs).1) (readLine cs).2 := rfl
      have hu2 : loadLoop b (g + 1) st cs =
          if (readLine cs).1 = [] then st
          else loadLoop b g (loadStep b st (readLine cs).1) (readLine cs).2 := rfl
      rw [hu1, hu2]
      by_cases hl : (readLine cs).1 = []
      · rw [if_pos hl, if_pos hl]
      · rw [if_neg hl, if_neg hl]
        have hlt := readLine_rest_lt cs hl
        exact ih g _ _ (by omega) (by omega)

theorem loadLoop_nil (b : Build) (st : LoadSt) (f : Nat) : loadLoop b f st [] = st := by
  match f with
  | 0 => rfl
  | f + 1 => rfl

theorem loadLoop_last (b : Build) (st : LoadSt) {l : List Char} (f : Nat) (hne : l ≠ [])
    (hnl : ∀ c ∈ l, ¬ c = '\n') (hf : l.length < f) :
    loadLoop b f st l = loadStep b st l := by
  match f with
  | f + 1 =>
    have hu : loadLoop b (f + 1) st l =
        if (readLine l).1 = [] then st
        else loadLoop b f (loadStep b st (readLine l).1) (readLine l).2 := rfl
    rw [hu, readLine_noNewline hnl]
    simp only
    rw [if_neg hne, loadLoop_nil]

theorem loadLoop_cons (b : Build) (st : LoadSt) {l : List Char} (rest : List Char) (f : Nat)
    (hne : l ≠ []) (hnl : ∀ c ∈ l, ¬ c = '\n') (hf : (l ++ '\n' :: rest).length < f) :
    loadLoop b f st (l ++ '\n' :: rest) = loadLoop b (rest.length + 1) (loadStep b st l) rest := by
  match f with
  | f + 1 =>
    have hu : loadLoop b (f + 1) st (l ++ '\n' :: rest) =
        if (readLine (l ++ '\n' :: rest)).1 = [] then st
        else loadLoop b f (loadStep b st (readLine (l ++ '\n' :: rest)).1)
          (readLine (l ++ '\n' :: rest)).2 := rfl
    rw [hu, readLine_cons rest hnl]
    simp only
    rw [if_neg hne]
    have hlen : (l ++ '\n' :: rest).length = l.length + 1 + rest.length := by
      simp
      omega
    have hl1 : 0 < l.length := List.length_pos.mpr hne
    exact loadLoop_fuel b f (rest.length + 1) _ rest (by omega) (by omega)

theorem loadStep_keyval (b : Build) (st : LoadSt) (k v : List Char) (hk : '=' ∉ k) :
    loadStep b st (k ++ '=' :: v) = loadStepKV b st (strip k) (strip v) := by
  unfold loadStep
  rw [findFirstOf_append_cons v hk]
  dsimp only
  rw [take_append_len k ('=' :: v), drop_append_len_succ k '=' v]

theorem takeWhile_nil_of_head {p : Char → Bool} {l : List Char}
    (h : ∀ c, l.head? = some c → p c = false) : l.takeWhile p = [] := by
  cases l with
  | nil => rfl
  | cons x xs =>
    rw [List.takeWhile_cons, h x rfl]
    rfl

theorem dropWhile_id_of_head {p : Char → Bool} {l : List Char}
    (h : ∀ c, l.head? = some c → p c = false) : l.dropWhile p = l := by
  cases l with
  | nil => rfl
  | cons x xs =>
    rw [List.dropWhile_cons, h x rfl]
    simp

theorem strip_eq_self {l : List Char}
    (hh : ∀ c, l.head? = some c → isSpaceTab c = false)
    (ht : ∀ c, l.getLast? = some c → isSpaceTab c = false) : strip l = l := by
  unfold strip
  rw [dropWhile_id_of_head hh,
    dropWhile_id_of_head (fun c hc => ht c (by rwa [List.head?_reverse] at hc)),
    List.reverse_reverse]

theorem isDigit_ne (c : Char) (h : c.isDigit = true) :
    ¬ c = '\n' ∧ ¬ c = '=' ∧ ¬ c = '.' ∧ isSpaceTab c = false := by
  have hb := isDigit_toNat c h
  refine ⟨?_, ?_, ?_, ?_⟩
  · rintro rfl; exact absurd hb (by decide)
  · rintro rfl; exact absurd hb (by decide)
  · rintro rfl; exact absurd hb (by decide)
  · cases hsp : isSpaceTab c with
    | false => rfl
    | true =>
      simp only [isSpaceTab, Bool.or_eq_true, decide_eq_true_eq] at hsp
      rcases hsp with rfl | rfl
      · exact absurd hb (by decide)
      · exact absurd hb (by decide)

theorem strip_digits {l : List Char} (h : ∀ c ∈ l, c.isDigit = true) : strip l = l :=
  strip_eq_self
    (fun c hc => (isDigit_ne c (h c (by
      cases l with
      | nil => simp at hc
      | cons x xs => simp at hc; simp [hc]))).2.2.2)
    (fun c hc => (isDigit_ne c (h c (List.mem_of_mem_getLast? hc))).2.2.2)

theorem loadStepKV_port (b : Build) (st : LoadSt) (val : List Char) (hval : val ≠ []) :
    loadStepKV b st "port".data val =
      (match parseInt U16_MAX val with
       | .ok v => { st with port := v }
       | .error _ => st) := by
  unfold loadStepKV
  rw [if_neg (by simp [hval]), if_neg (by decide), if_neg (by decide), if_pos rfl]

theorem loadStepKV_deflate (b : Build) (st : LoadSt) (val : List Char) (hval : val ≠ []) :
    loadStepKV b st "deflateLevel".data val =
      (match parseInt INT_MAX val with
       | .ok v => { st with level := (v : Int) }
       | .error _ => st) := by
  unfold loadStepKV
  rw [if_neg (by simp [hval]), if_neg (by decide), if_neg (by decide), if_neg (by decide),
    if_pos rfl]

theorem loadStepKV_user (b : Build) (st : LoadSt) (val : List Char) (hval : val ≠ []) :
    loadStepKV b st "user".data val = { st with cfg := { st.cfg with user := val } } := by
  unfold loadStepKV
  rw [if_neg (by simp [hval]), if_pos rfl]

theorem loadStepKV_pass (b : Build) (st : LoadSt) (val : List Char) (hval : val ≠ []) :
    loadStepKV b st "pass".data val = { st with cfg := { st.cfg with pass := val } } := by
  unfold loadStepKV
  rw [if_neg (by simp [hval]), if_neg (by decide), if_pos rfl]

/-! ### C10 — load tolerance of malformed input -/

/-- C10: `load` of an unopenable file yields the default configuration
(empty user/pass, port 5000, deflate level 6); a processed line without
`'='`, or whose stripped key or value is empty, leaves the state
unchanged; a `port`/`deflateLevel` line whose value does not parse leaves
the state unchanged; and a parsed but out-of-range `port` (1..1023) or
`deflateLevel` (10..) leaves the corresponding default in place. -/
theorem load_error_tolerance (b : Build) (st : LoadSt) (line v : List Char) :
    ((FtpConfig.load b none).user = [] ∧ (FtpConfig.load b none).pass = [] ∧
      (FtpConfig.load b none).port = 5000 ∧ (FtpConfig.load b none).deflateLevel = 6) ∧
    (findFirstOf '=' line = none → loadStep b st line = st) ∧
    (∀ pos, findFirstOf '=' line = some pos →
      (strip (line.take pos) = [] ∨ strip (line.drop (pos + 1)) = []) →
      loadStep b st line = st) ∧
    (∀ e, parseInt U16_MAX (strip v) = .error e →
      loadStep b st ("port=".data ++ v) = st) ∧
    (∀ e, parseInt INT_MAX (strip v) = .error e →
      loadStep b st ("deflateLevel=".data ++ v) = st) ∧
    ((∀ c ∈ v, c.isDigit = true) → 1 ≤ digitsVal v → digitsVal v ≤ 1023 →
      (FtpConfig.load b (some ("port=".data ++ v))).port = 5000) ∧
    ((∀ c ∈ v, c.isDigit = true) → 10 ≤ digitsVal v → digitsVal v ≤ INT_MAX →
      (FtpConfig.load b (some ("deflateLevel=".data ++ v))).deflateLevel = 6) := by
  refine ⟨⟨rfl, rfl, rfl, rfl⟩, fun h => ?_, fun pos hpos hor => ?_, fun e he => ?_,
    fun e he => ?_, fun hdig h1 h2 => ?_, fun hdig h1 h2 => ?_⟩
  · unfold loadStep
    rw [h]
  · unfold loadStep
    rw [hpos]
    dsimp only
    unfold loadStepKV
    rw [if_pos hor]
  · rw [show "port=".data ++ v = "port".data ++ '=' :: v from rfl,
      loadStep_keyval b st _ v (by decide),
      show strip "port".data = "port".data from by decide]
    by_cases hv : strip v = []
    · unfold loadStepKV
      rw [if_pos (Or.inr hv)]
    · rw [loadStepKV_port b st _ hv, he]
  · rw [show "deflateLevel=".data ++ v = "deflateLevel".data ++ '=' :: v from rfl,
      loadStep_keyval b st _ v (by decide),
      show strip "deflateLevel".data = "deflateLevel".data from by decide]
    by_cases hv : strip v = []
    · unfold loadStepKV
      rw [if_pos (Or.inr hv)]
    · rw [loadStepKV_deflate b st _ hv, he]
  · have hvne : v ≠ [] := by
      rintro rfl
      have : digitsVal [] = 0 := rfl
      omega
    have hsv : strip v = v := strip_digits hdig
    have hparse : parseInt U16_MAX v = .ok (digitsVal v) :=
      (parseInt_ok_iff U16_MAX (by norm_num [U16_MAX]) v _).mpr
        ⟨hvne, hdig, by norm_num [U16_MAX]; omega, rfl⟩
    have hne : "port=".data ++ v ≠ [] := by
      intro hX
      rw [List.append_eq_nil] at hX
      exact absurd hX.1 (by decide)
    have hnl : ∀ c ∈ "port=".data ++ v, ¬ c = '\n' := by
      intro c hc
      rcases List.mem_append.mp hc with hcl | hcr
      · fin_cases hcl <;> decide
      · exact (isDigit_ne c (hdig c hcr)).1
    have hload : FtpConfig.load b (some ("port=".data ++ v)) =
        ((((loadLoop b (("port=".data ++ v).length + 1)
            { cfg := FtpConfig.init, port := DEFAULT_PORT, level := DEFAULT_DEFLATE_LEVEL }
            ("port=".data ++ v)).cfg.setPort b
          (loadLoop b (("port=".data ++ v).length + 1)
            { cfg := FtpConfig.init, port := DEFAULT_PORT, level := DEFAULT_DEFLATE_LEVEL }
            ("port=".data ++ v)).port).2).setDeflateLevel
          (loadLoop b (("port=".data ++ v).length + 1)
            { cfg := FtpConfig.init, port := DEFAULT_PORT, level := DEFAULT_DEFLATE_LEVEL }
            ("port=".data ++ v)).level).2 := rfl
    rw [hload, loadLoop_last b _ _ hne hnl (by omega),
      show "port=".data ++ v = "port".data ++ '=' :: v from rfl,
      loadStep_keyval b _ _ v (by decide),
      show strip "port".data = "port".data from by decide, hsv,
      loadStepKV_port b _ v hvne, hparse]
    dsimp only
    rw [setDeflate_port]
    unfold FtpConfig.setPort
    rw [if_pos ⟨by omega, fun _ => by omega⟩]
    rfl
  · have hvne : v ≠ [] := by
      rintro rfl
      have : digitsVal [] = 0 := rfl
      omega
    have hsv : strip v = v := strip_digits hdig
    have hparse : parseInt INT_MAX v = .ok (digitsVal v) :=
      (parseInt_ok_iff INT_MAX (by norm_num [INT_MAX]) v _).mpr
        ⟨hvne, hdig, by omega, rfl⟩
    have hne : "deflateLevel=".data ++ v ≠ [] := by
      intro hX
      rw [List.append_eq_nil] at hX
      exact absurd hX.1 (by decide)
    have hnl : ∀ c ∈ "deflateLevel=".data ++ v, ¬ c = '\n' := by
      intro c hc
      rcases List.mem_append.mp hc with hcl | hcr
      · fin_cases hcl <;> decide
      · exact (isDigit_ne c (hdig c hcr)).1
    have hload : FtpConfig.load b (some ("deflateLevel=".data ++ v)) =
        ((((loadLoop b (("deflateLevel=".data ++ v).length + 1)
            { cfg := FtpConfig.init, port := DEFAULT_PORT, level := DEFAULT_DEFLATE_LEVEL }
            ("deflateLevel=".data ++ v)).cfg.setPort b
          (loadLoop b (("deflateLevel=".data ++ v).length + 1)
            { cfg := FtpConfig.init, port := DEFAULT_PORT, level := DEFAULT_DEFLATE_LEVEL }
            ("deflateLevel=".data ++ v)).port).2).setDeflateLevel
          (loadLoop b (("deflateLevel=".data ++ v).length + 1)
            { cfg := FtpConfig.init, port := DEFAULT_PORT, level := DEFAULT_DEFLATE_LEVEL }
            ("deflateLevel=".data ++ v)).level).2 := rfl
    rw [hload, loadLoop_last b _ _ hne hnl (by omega),
      show "deflateLevel=".data ++ v = "deflateLevel".data ++ '=' :: v from rfl,
      loadStep_keyval b _ _ v (by decide),
      show strip "deflateLevel".data = "deflateLevel".data from by decide, hsv,
      loadStepKV_deflate b _ v hvne, hparse]
    dsimp only
    unfold FtpConfig.setPort
    rw [if_neg (by rintro ⟨hX, -⟩; revert hX; decide)]
    unfold FtpConfig.setDeflateLevel
    rw [if_pos (Or.inr (by exact_mod_cast (show 9 < digitsVal v by omega)))]
    rfl

/-- Closed instance of `load_error_tolerance` at concrete malformed and
out-of-range inputs. -/
theorem load_error_tolerance_witness :
    (FtpConfig.load Build.pc none).port = 5000 ∧
    loadStep Build.pc { cfg := FtpConfig.init, port := 5000, level := 6 } "garbage".data =
      { cfg := FtpConfig.init, port := 5000, level := 6 } ∧
    loadStep Build.pc { cfg := FtpConfig.init, port := 5000, level := 6 } "=x".data =
      { cfg := FtpConfig.init, port := 5000, level := 6 } ∧
    loadStep Build.pc { cfg := FtpConfig.init, port := 5000, level := 6 } "port=x".data =
      { cfg := FtpConfig.init, port := 5000, level := 6 } ∧
    loadStep Build.pc { cfg := FtpConfig.init, port := 5000, level := 6 }
      "deflateLevel=x".data = { cfg := FtpConfig.init, port := 5000, level := 6 } ∧
    (FtpConfig.load Build.pc (some ("port=".data ++ "80".data))).port = 5000 ∧
    (FtpConfig.load Build.pc (some ("deflateLevel=".data ++ "10".data))).deflateLevel = 6 := by
  refine ⟨(load_error_tolerance Build.pc { cfg := FtpConfig.init, port := 5000, level := 6 } [] []).1.2.2.1,
    (load_error_tolerance Build.pc { cfg := FtpConfig.init, port := 5000, level := 6 } "garbage".data []).2.1 (by decide),
    (load_error_tolerance Build.pc { cfg := FtpConfig.init, port := 5000, level := 6 } "=x".data []).2.2.1 0 (by decide) (Or.inl (by decide)),
    (load_error_tolerance Build.pc { cfg := FtpConfig.init, port := 5000, level := 6 } [] ['x']).2.2.2.1 .einval rfl,
    (load_error_tolerance Build.pc { cfg := FtpConfig.init, port := 5000, level := 6 } [] ['x']).2.2.2.2.1 .einval rfl,
    (load_error_tolerance Build.pc { cfg := FtpConfig.init, port := 5000, level := 6 } [] "80".data).2.2.2.2.2.1 (by decide) (by decide) (by decide),
    (load_error_tolerance Build.pc { cfg := FtpConfig.init, port := 5000, level := 6 } [] "10".data).2.2.2.2.2.2 (by decide) (by decide) (by decide)⟩

/-! ### C2 — save/load round-trip -/

theorem setPort_user (b : Build) (cfg : FtpConfig) (p : Nat) :
    (cfg.setPort b p).2.user = cfg.user := by
  unfold FtpConfig.setPort
  split <;> rfl

theorem setPort_pass (b : Build) (cfg : FtpConfig) (p : Nat) :
    (cfg.setPort b p).2.pass = cfg.pass := by
  unfold FtpConfig.setPort
  split <;> rfl

theorem setDeflate_user (cfg : FtpConfig) (l : Int) :
    (cfg.setDeflateLevel l).2.user = cfg.user := by
  unfold FtpConfig.setDeflateLevel
  split <;> rfl

theorem setDeflate_pass (cfg : FtpConfig) (l : Int) :
    (cfg.setDeflateLevel l).2.pass = cfg.pass := by
  unfold FtpConfig.setDeflateLevel
  split <;> rfl

theorem setPort_accepted_iff (b : Build) (cfg : FtpConfig) (p : Nat) :
    (cfg.setPort b p).1.1 = true ↔ ¬ (p < 1024 ∧ (b = .pc → p ≠ 0)) := by
  unfold FtpConfig.setPort
  by_cases hcond : p < 1024 ∧ (b = .pc → p ≠ 0)
  · rw [if_pos hcond]
    constructor
    · intro h
      simp at h
    · intro hX
      exact absurd hcond hX
  · rw [if_neg hcond]
    simp [hcond]

theorem setPort_port_of_accept (b : Build) (cfg : FtpConfig) (p : Nat)
    (h : ¬ (p < 1024 ∧ (b = .pc → p ≠ 0))) : (cfg.setPort b p).2.port = p := by
  unfold FtpConfig.setPort
  rw [if_neg h]

theorem setDeflate_level_of_range (cfg : FtpConfig) (l : Int) (h : ¬ (l < 0 ∨ 9 < l)) :
    (cfg.setDeflateLevel l).2.deflateLevel = l := by
  unfold FtpConfig.setDeflateLevel
  rw [if_neg h]

theorem natRepr_no_newline (n : Nat) : ∀ c ∈ natRepr n, ¬ c = '\n' :=
  fun c hc => (isDigit_ne c (natRepr_digits n c hc)).1

/-- C2 (on the builds where it holds, see `save_load_ctr_bug` for the
`_3DS` build): for a config with nonempty user and password containing no
newline, carriage return or NUL and no leading/trailing space or tab, a
port accepted by `setPort`, and a deflate level in 0..9, `load` of the
file `save` wrote restores `user`, `pass`, `port` and `deflateLevel`. -/
theorem save_load_roundtrip (b : Build) (cfg : FtpConfig) (hb : b ≠ .ctr)
    (hu_ne : cfg.user ≠ []) (hp_ne : cfg.pass ≠ [])
    (hu_ok : ∀ c ∈ cfg.user, ¬ c = '\n' ∧ ¬ c = '\r' ∧ ¬ c = '\x00')
    (hp_ok : ∀ c ∈ cfg.pass, ¬ c = '\n' ∧ ¬ c = '\r' ∧ ¬ c = '\x00')
    (hu_head : ∀ c, cfg.user.head? = some c → isSpaceTab c = false)
    (hu_last : ∀ c, cfg.user.getLast? = some c → isSpaceTab c = false)
    (hp_head : ∀ c, cfg.pass.head? = some c → isSpaceTab c = false)
    (hp_last : ∀ c, cfg.pass.getLast? = some c → isSpaceTab c = false)
    (hport : (cfg.setPort b cfg.port).1.1 = true) (hport_le : cfg.port ≤ U16_MAX)
    (hlevel : 0 ≤ cfg.deflateLevel ∧ cfg.deflateLevel ≤ 9) :
    (FtpConfig.load b (some (cfg.save b))).user = cfg.user ∧
    (FtpConfig.load b (some (cfg.save b))).pass = cfg.pass ∧
    (FtpConfig.load b (some (cfg.save b))).port = cfg.port ∧
    (FtpConfig.load b (some (cfg.save b))).deflateLevel = cfg.deflateLevel := by
  have hlvl32 : u32Of cfg.deflateLevel = cfg.deflateLevel.toNat := by
    unfold u32Of
    rw [Int.emod_eq_of_lt hlevel.1 (by omega)]
  have hlvl9 : cfg.deflateLevel.toNat ≤ 9 := by omega
  have hshape : cfg.save b =
      ("user=".data ++ cfg.user) ++ '\n' ::
        (("pass=".data ++ cfg.pass) ++ '\n' ::
          (("port=".data ++ natRepr cfg.port) ++ '\n' ::
            ("deflateLevel=".data ++ natRepr (u32Of cfg.deflateLevel)))) := by
    unfold FtpConfig.save
    rw [if_pos hu_ne, if_pos hp_ne, if_neg hb]
    simp [List.append_assoc]
  have hl1ne : ("user=".data ++ cfg.user) ≠ [] := by
    intro hX
    rw [List.append_eq_nil] at hX
    exact absurd hX.1 (by decide)
  have hl2ne : ("pass=".data ++ cfg.pass) ≠ [] := by
    intro hX
    rw [List.append_eq_nil] at hX
    exact absurd hX.1 (by decide)
  have hl3ne : ("port=".data ++ natRepr cfg.port) ≠ [] := by
    intro hX
    rw [List.append_eq_nil] at hX
    exact absurd hX.1 (by decide)
  have hl4ne : ("deflateLevel=".data ++ natRepr (u32Of cfg.deflateLevel)) ≠ [] := by
    intro hX
    rw [List.append_eq_nil] at hX
    exact absurd hX.1 (by decide)
  have hl1nl : ∀ c ∈ "user=".data ++ cfg.user, ¬ c = '\n' := by
    intro c hc
    rcases List.mem_append.mp hc with hcl | hcr
    · fin_cases hcl <;> decide
    · exact (hu_ok c hcr).1
  have hl2nl : ∀ c ∈ "pass=".data ++ cfg.pass, ¬ c = '\n' := by
    intro c hc
    rcases List.mem_append.mp hc with hcl | hcr
    · fin_cases hcl <;> decide
    · exact (hp_ok c hcr).1
  have hl3nl : ∀ c ∈ "port=".data ++ natRepr cfg.port, ¬ c = '\n' := by
    intro c hc
    rcases List.mem_append.mp hc with hcl | hcr
    · fin_cases hcl <;> decide
    · exact natRepr_no_newline _ c hcr
  have hl4nl : ∀ c ∈ "deflateLevel=".data ++ natRepr (u32Of cfg.deflateLevel), ¬ c = '\n' := by
    intro c hc
    rcases List.mem_append.mp hc with hcl | hcr
    · fin_cases hcl <;> decide
    · exact natRepr_no_newline _ c hcr
  have hparse_port : parseInt U16_MAX (natRepr cfg.port) = .ok cfg.port := by
    have := (parseInt_ok_iff U16_MAX (by norm_num [U16_MAX]) (natRepr cfg.port)
      (digitsVal (natRepr cfg.port))).mpr
      ⟨natRepr_ne_nil _, natRepr_digits _, by rw [natRepr_val]; exact hport_le, rfl⟩
    rwa [natRepr_val] at this
  have hparse_lvl : parseInt INT_MAX (natRepr cfg.deflateLevel.toNat) =
      .ok cfg.deflateLevel.toNat := by
    have := (parseInt_ok_iff INT_MAX (by norm_num [INT_MAX]) (natRepr cfg.deflateLevel.toNat)
      (digitsVal (natRepr cfg.deflateLevel.toNat))).mpr
      ⟨natRepr_ne_nil _, natRepr_digits _, by rw [natRepr_val]; norm_num [INT_MAX]; omega, rfl⟩
    rwa [natRepr_val] at this
  have hload : FtpConfig.load b (some (cfg.save b)) =
      ((((loadLoop b ((cfg.save b).length + 1)
          { cfg := FtpConfig.init, port := DEFAULT_PORT, level := DEFAULT_DEFLATE_LEVEL }
          (cfg.save b)).cfg.setPort b
        (loadLoop b ((cfg.save b).length + 1)
          { cfg := FtpConfig.init, port := DEFAULT_PORT, level := DEFAULT_DEFLATE_LEVEL }
          (cfg.save b)).port).2).setDeflateLevel
        (loadLoop b ((cfg.save b).length + 1)
          { cfg := FtpConfig.init, port := DEFAULT_PORT, level := DEFAULT_DEFLATE_LEVEL }
          (cfg.save b)).level).2 := rfl
  have hrun : loadLoop b ((cfg.save b).length + 1)
      { cfg := FtpConfig.init, port := DEFAULT_PORT, level := DEFAULT_DEFLATE_LEVEL }
      (cfg.save b) =
      { cfg := { FtpConfig.init with user := cfg.user, pass := cfg.pass },
        port := cfg.port, level := (cfg.deflateLevel.toNat : Int) } := by
    rw [hshape]
    rw [loadLoop_cons b _ _ _ hl1ne hl1nl (by omega)]
    rw [show ("user=".data ++ cfg.user) = ("user".data ++ '=' :: cfg.user) from rfl,
      loadStep_keyval b _ _ cfg.user (by decide),
      show strip "user".data = "user".data from by decide,
      strip_eq_self hu_head hu_last,
      loadStepKV_user b _ cfg.user hu_ne]
    rw [loadLoop_cons b _ _ _ hl2ne hl2nl (by omega)]
    rw [show ("pass=".data ++ cfg.pass) = ("pass".data ++ '=' :: cfg.pass) from rfl,
      loadStep_keyval b _ _ cfg.pass (by decide),
      show strip "pass".data = "pass".data from by decide,
      strip_eq_self hp_head hp_last,
      loadStepKV_pass b _ cfg.pass hp_ne]
    rw [loadLoop_cons b _ _ _ hl3ne hl3nl (by omega)]
    rw [show ("port=".data ++ natRepr cfg.port) =
        ("port".data ++ '=' :: natRepr cfg.port) from rfl,
      loadStep_keyval b _ _ (natRepr cfg.port) (by decide),
      show strip "port".data = "port".data from by decide,
      strip_digits (natRepr_digits _),
      loadStepKV_port b _ (natRepr cfg.port) (natRepr_ne_nil _), hparse_port]
    rw [loadLoop_last b _ _ hl4ne hl4nl (by omega)]
    rw [show ("deflateLevel=".data ++ natRepr (u32Of cfg.deflateLevel)) =
        ("deflateLevel".data ++ '=' :: natRepr (u32Of cfg.deflateLevel)) from rfl,
      loadStep_keyval b _ _ (natRepr (u32Of cfg.deflateLevel)) (by decide),
      show strip "deflateLevel".data = "deflateLevel".data from by decide,
      strip_digits (natRepr_digits _),
      loadStepKV_deflate b _ (natRepr (u32Of cfg.deflateLevel)) (natRepr_ne_nil _)]
    rw [hlvl32, hparse_lvl]
  have haccept : ¬ (cfg.port < 1024 ∧ (b = .pc → cfg.port ≠ 0)) :=
    (setPort_accepted_iff b cfg cfg.port).mp hport
  have hlrange : ¬ ((cfg.deflateLevel.toNat : Int) < 0 ∨ 9 < (cfg.deflateLevel.toNat : Int)) := by
    push_neg
    constructor
    · positivity
    · exact_mod_cast hlvl9
  rw [hload, hrun]
  refine ⟨?_, ?_, ?_, ?_⟩
  · rw [setDeflate_user, setPort_user]
  · rw [setDeflate_pass, setPort_pass]
  · rw [setDeflate_port, setPort_port_of_accept b _ _ haccept]
  · rw [setDeflate_level_of_range _ _ hlrange]
    omega

/-- Closed instance of `save_load_roundtrip` at a concrete configuration. -/
theorem save_load_roundtrip_witness :
    (FtpConfig.load Build.pc
        (some (FtpConfig.save Build.pc
          { user := ['b', 'o', 'b'], pass := ['p', 'w'], port := 5001, deflateLevel := 3,
            getMTime := true }))).user = ['b', 'o', 'b'] ∧
    (FtpConfig.load Build.pc
        (some (FtpConfig.save Build.pc
          { user := ['b', 'o', 'b'], pass := ['p', 'w'], port := 5001, deflateLevel := 3,
            getMTime := true }))).pass = ['p', 'w'] ∧
    (FtpConfig.load Build.pc
        (some (FtpConfig.save Build.pc
          { user := ['b', 'o', 'b'], pass := ['p', 'w'], port := 5001, deflateLevel := 3,
            getMTime := true }))).port = 5001 ∧
    (FtpConfig.load Build.pc
        (some (FtpConfig.save Build.pc
          { user := ['b', 'o', 'b'], pass := ['p', 'w'], port := 5001, deflateLevel := 3,
            getMTime := true }))).deflateLevel = 3 :=
  save_load_roundtrip Build.pc
    { user := ['b', 'o', 'b'], pass := ['p', 'w'], port := 5001, deflateLevel := 3,
      getMTime := true }
    (by decide) (by decide) (by decide) (by decide) (by decide)
    (by decide) (by decide) (by decide) (by decide)
    (by decide) (by decide) (by decide)

/-- C2 fails on the `_3DS` build: `save` omits the newline after the
`deflateLevel` line, so the `mtime` line is glued to it and `load` cannot
parse the level back; a saved level 3 comes back as the default 6. -/
theorem save_load_ctr_bug :
    (FtpConfig.load Build.ctr
        (some (FtpConfig.save Build.ctr
          { user := ['a'], pass := ['b'], port := 5000, deflateLevel := 3,
            getMTime := true }))).deflateLevel = 6 ∧
    ¬ (FtpConfig.load Build.ctr
        (some (FtpConfig.save Build.ctr
          { user := ['a'], pass := ['b'], port := 5000, deflateLevel := 3,
            getMTime := true }))).deflateLevel =
      (3 : Int) := by
  constructor <;> decide

/-! ### C3 / C5 — readAll / writeAll loop behaviour -/

theorem readAllT_eq_writeAllT (o : Nat → Nat → Int) (size : Nat) (f : Nat) :
    ∀ bytes, readAllT o size f bytes = writeAllT o size f bytes := by
  induction f with
  | zero => intro bytes; rfl
  | succ f ih =>
    intro bytes
    simp only [readAllT, writeAllT]
    rw [ih]

theorem readAllGo_eq_writeAllGo (o : Nat → Nat → Int) (size : Nat) : ∀ bytes,
    readAllGo o size bytes = writeAllGo o size bytes := by
  have key : ∀ (m bytes : Nat), size - bytes ≤ m →
      readAllGo o size bytes = writeAllGo o size bytes := by
    intro m
    induction m with
    | zero =>
      intro bytes hm
      unfold readAllGo writeAllGo
      rw [dif_neg (by omega), dif_neg (by omega)]
    | succ m ih =>
      intro bytes hm
      unfold readAllGo writeAllGo
      by_cases h : bytes < size
      · rw [dif_pos h, dif_pos h]
        by_cases hrc : o bytes (size - bytes) ≤ 0
        · rw [dif_pos hrc, dif_pos hrc]
        · rw [dif_neg hrc, dif_neg hrc]
          exact ih _ (by omega)
      · rw [dif_neg h, dif_neg h]
  exact fun bytes => key (size - bytes) bytes (le_refl _)

theorem writeAllT_total (o : Nat → Nat → Int) (size : Nat) (f : Nat) :
    ∀ bytes, size - bytes < f →
    ∃ t, writeAllT o size f bytes = some (writeAllGo o size bytes, t) := by
  induction f with
  | zero => intro bytes h; omega
  | succ f ih =>
    intro bytes hf
    rw [writeAllT]
    by_cases h : bytes < size
    · rw [if_pos h]
      by_cases hrc : o bytes (size - bytes) ≤ 0
      · rw [if_pos hrc]
        refine ⟨[(bytes, size - bytes, o bytes (size - bytes))], ?_⟩
        unfold writeAllGo
        rw [dif_pos h, dif_pos hrc]
      · rw [if_neg hrc]
        have hpos : 0 < (o bytes (size - bytes)).toNat := by omega
        obtain ⟨t, ht⟩ := ih (bytes + (o bytes (size - bytes)).toNat) (by omega)
        rw [ht]
        refine ⟨(bytes, size - bytes, o bytes (size - bytes)) :: t, ?_⟩
        have hgo : writeAllGo o size bytes =
            writeAllGo o size (bytes + (o bytes (size - bytes)).toNat) := by
          conv_lhs => rw [writeAllGo]
          rw [dif_pos h, dif_neg hrc]
        rw [hgo]
    · rw [if_neg h]
      refine ⟨[], ?_⟩
      unfold writeAllGo
      rw [dif_neg h]

theorem writeAllT_chained (o : Nat → Nat → Int) (size : Nat) (f : Nat) :
    ∀ bytes r, writeAllT o size f bytes = some r → Chained size bytes r.2 := by
  induction f with
  | zero => intro bytes r h; exact absurd h (by simp [writeAllT])
  | succ f ih =>
    intro bytes r h
    rw [writeAllT] at h
    by_cases hlt : bytes < size
    · rw [if_pos hlt] at h
      by_cases hrc : o bytes (size - bytes) ≤ 0
      · rw [if_pos hrc] at h
        cases h
        exact ⟨rfl, rfl, trivial⟩
      · rw [if_neg hrc] at h
        cases ht : writeAllT o size f (bytes + (o bytes (size - bytes)).toNat) with
        | none => rw [ht] at h; exact absurd h (by simp)
        | some r2 =>
          rw [ht] at h
          cases h
          exact ⟨rfl, rfl, ih _ r2 ht⟩
    · rw [if_neg hlt] at h
      cases h
      exact trivial

theorem sumRc_cons (e : Nat × Nat × Int) (t : List (Nat × Nat × Int)) :
    sumRc (e :: t) = e.2.2.toNat + sumRc t := by
  simp [sumRc]

theorem writeAllT_true_iff (o : Nat → Nat → Int) (size : Nat) (f : Nat) :
    ∀ bytes r, writeAllT o size f bytes = some r →
    (r.1 = true ↔ (∀ e ∈ r.2, 0 < e.2.2) ∧ size ≤ bytes + sumRc r.2) := by
  induction f with
  | zero => intro bytes r h; exact absurd h (by simp [writeAllT])
  | succ f ih =>
    intro bytes r h
    rw [writeAllT] at h
    by_cases hlt : bytes < size
    · rw [if_pos hlt] at h
      by_cases hrc : o bytes (size - bytes) ≤ 0
      · rw [if_pos hrc] at h
        cases h
        constructor
        · intro hX; exact absurd hX (by simp)
        · rintro ⟨hall, -⟩
          have h0 : (0 : Int) < o bytes (size - bytes) :=
            hall (bytes, size - bytes, o bytes (size - bytes)) (by simp)
          omega
      · rw [if_neg hrc] at h
        cases ht : writeAllT o size f (bytes + (o bytes (size - bytes)).toNat) with
        | none => rw [ht] at h; exact absurd h (by simp)
        | some r2 =>
          rw [ht] at h
          cases h
          have hiff := ih _ r2 ht
          simp only [sumRc_cons, List.mem_cons]
          constructor
          · intro h1
            obtain ⟨hall, hle⟩ := hiff.mp h1
            refine ⟨?_, by omega⟩
            rintro e (rfl | he)
            · show (0 : Int) < o bytes (size - bytes)
              omega
            · exact hall e he
          · rintro ⟨hall, hle⟩
            refine hiff.mpr ⟨fun e he => hall e (Or.inr he), by omega⟩
    · rw [if_neg hlt] at h
      cases h
      dsimp only
      constructor
      · intro h1
        refine ⟨by simp, ?_⟩
        have h0 : sumRc ([] : List (Nat × Nat × Int)) = 0 := rfl
        omega
      · intro h1; rfl

theorem writeAllT_false (o : Nat → Nat → Int) (size : Nat) (f : Nat) :
    ∀ bytes r, writeAllT o size f bytes = some r → r.1 = false →
    ∃ e pre, r.2 = pre ++ [e] ∧ e.2.2 ≤ 0 ∧ ∀ x ∈ pre, 0 < x.2.2 := by
  induction f with
  | zero => intro bytes r h; exact absurd h (by simp [writeAllT])
  | succ f ih =>
    intro bytes r h hfalse
    rw [writeAllT] at h
    by_cases hlt : bytes < size
    · rw [if_pos hlt] at h
      by_cases hrc : o bytes (size - bytes) ≤ 0
      · rw [if_pos hrc] at h
        cases h
        exact ⟨(bytes, size - bytes, o bytes (size - bytes)), [], rfl, hrc, by simp⟩
      · rw [if_neg hrc] at h
        cases ht : writeAllT o size f (bytes + (o bytes (size - bytes)).toNat) with
        | none => rw [ht] at h; exact absurd h (by simp)
        | some r2 =>
          rw [ht] at h
          cases h
          obtain ⟨e, pre, hsplit, hele, hpre⟩ := ih _ r2 ht hfalse
          refine ⟨e, (bytes, size - bytes, o bytes (size - bytes)) :: pre, by simp [hsplit],
            hele, ?_⟩
          intro x hx
          rcases List.mem_cons.mp hx with rfl | hx2
          · show (0 : Int) < o bytes (size - bytes)
            omega
          · exact hpre x hx2
    · rw [if_neg hlt] at h
      cases h
      exact absurd hfalse (by simp)

theorem writeAllT_true_exact (o : Nat → Nat → Int) (size : Nat)
    (ho : ∀ off req, o off req ≤ (req : Int)) (f : Nat) :
    ∀ bytes r, bytes ≤ size → writeAllT o size f bytes = some r → r.1 = true →
    bytes + sumRc r.2 = size := by
  induction f with
  | zero => intro bytes r _ h; exact absurd h (by simp [writeAllT])
  | succ f ih =>
    intro bytes r hble h htrue
    rw [writeAllT] at h
    by_cases hlt : bytes < size
    · rw [if_pos hlt] at h
      by_cases hrc : o bytes (size - bytes) ≤ 0
      · rw [if_pos hrc] at h
        cases h
        exact absurd htrue (by simp)
      · rw [if_neg hrc] at h
        cases ht : writeAllT o size f (bytes + (o bytes (size - bytes)).toNat) with
        | none => rw [ht] at h; exact absurd h (by simp)
        | some r2 =>
          rw [ht] at h
          cases h
          have hreq := ho bytes (size - bytes)
          have hb2 : bytes + (o bytes (size - bytes)).toNat ≤ size := by omega
          have hrec := ih _ r2 hb2 ht htrue
          show bytes + sumRc ((bytes, size - bytes, o bytes (size - bytes)) :: r2.2) = size
          rw [sumRc_cons]
          dsimp only
          omega
    · rw [if_neg hlt] at h
      cases h
      show bytes + sumRc [] = size
      have h0 : sumRc ([] : List (Nat × Nat × Int)) = 0 := rfl
      omega

/-- C3: the `writeAll`/`readAll` loops call the underlying `write`/`read`
with the buffer advanced by exactly the bytes already transferred and the
remaining length (`Chained`), return true exactly when every underlying
call transferred a positive count and the accumulated counts reach the
request, and return false as soon as a call returns zero or less — that
failing call is the last one made, never retried.  `readAll` is the same
loop as `writeAll`. -/
theorem readAll_writeAll_retry_spec (o : Nat → Nat → Int) (size : Nat) :
    (∃ t, writeAllT o size (size + 1) 0 = some (writeAll o size, t) ∧
      Chained size 0 t ∧
      (writeAll o size = true ↔ (∀ e ∈ t, 0 < e.2.2) ∧ size ≤ sumRc t) ∧
      (writeAll o size = false →
        ∃ e pre, t = pre ++ [e] ∧ e.2.2 ≤ 0 ∧ ∀ x ∈ pre, 0 < x.2.2)) ∧
    (∃ t, readAllT o size (size + 1) 0 = some (readAll o size, t) ∧
      Chained size 0 t ∧
      (readAll o size = true ↔ (∀ e ∈ t, 0 < e.2.2) ∧ size ≤ sumRc t) ∧
      (readAll o size = false →
        ∃ e pre, t = pre ++ [e] ∧ e.2.2 ≤ 0 ∧ ∀ x ∈ pre, 0 < x.2.2)) ∧
    readAll o size = writeAll o size := by
  have hr : readAll o size = writeAll o size := readAllGo_eq_writeAllGo o size 0
  obtain ⟨t, ht⟩ := writeAllT_total o size (size + 1) 0 (by omega)
  have hchain := writeAllT_chained o size (size + 1) 0 _ ht
  have hiff := writeAllT_true_iff o size (size + 1) 0 _ ht
  have hfalse := writeAllT_false o size (size + 1) 0 _ ht
  refine ⟨⟨t, ht, hchain, by simpa using hiff, by simpa using hfalse⟩,
    ⟨t, ?_, hchain, ?_, ?_⟩, hr⟩
  · rw [readAllT_eq_writeAllT, hr]
    exact ht
  · rw [hr]
    simpa using hiff
  · rw [hr]
    simpa using hfalse

/-- Closed instance of `readAll_writeAll_retry_spec` at a concrete oracle
(two partial writes of one byte each) and at a failing oracle. -/
theorem readAll_writeAll_retry_spec_witness :
    ((∃ t, writeAllT (fun _ _ => (1 : Int)) 2 3 0 =
        some (writeAll (fun _ _ => (1 : Int)) 2, t) ∧
      Chained 2 0 t ∧
      (writeAll (fun _ _ => (1 : Int)) 2 = true ↔
        (∀ e ∈ t, 0 < e.2.2) ∧ 2 ≤ sumRc t) ∧
      (writeAll (fun _ _ => (1 : Int)) 2 = false →
        ∃ e pre, t = pre ++ [e] ∧ e.2.2 ≤ 0 ∧ ∀ x ∈ pre, 0 < x.2.2)) ∧
    (∃ t, readAllT (fun _ _ => (1 : Int)) 2 3 0 =
        some (readAll (fun _ _ => (1 : Int)) 2, t) ∧
      Chained 2 0 t ∧
      (readAll (fun _ _ => (1 : Int)) 2 = true ↔
        (∀ e ∈ t, 0 < e.2.2) ∧ 2 ≤ sumRc t) ∧
      (readAll (fun _ _ => (1 : Int)) 2 = false →
        ∃ e pre, t = pre ++ [e] ∧ e.2.2 ≤ 0 ∧ ∀ x ∈ pre, 0 < x.2.2)) ∧
    readAll (fun _ _ => (1 : Int)) 2 = writeAll (fun _ _ => (1 : Int)) 2) ∧
    writeAll (fun _ _ => (0 : Int)) 2 = false :=
  ⟨readAll_writeAll_retry_spec (fun _ _ => (1 : Int)) 2, by
    unfold writeAll writeAllGo
    rw [dif_pos (by omega), dif_pos (by omega)]⟩

/-- C5: assuming every underlying call returns at most the count it was
asked for, both loops terminate within `size + 1` iterations (the
fuel-bounded instrumented run completes and agrees with the loop), each
iteration either fails or strictly advances the byte count, and a
successful run transfers exactly the requested size. -/
theorem readAll_writeAll_termination (o : Nat → Nat → Int) (size : Nat)
    (ho : ∀ off req, o off req ≤ (req : Int)) :
    (∃ t, writeAllT o size (size + 1) 0 = some (writeAll o size, t)) ∧
    (∃ t, readAllT o size (size + 1) 0 = some (readAll o size, t)) ∧
    (∀ bytes, bytes < size → o bytes (size - bytes) ≤ 0 ∨
      bytes < bytes + (o bytes (size - bytes)).toNat) ∧
    (∀ t, writeAllT o size (size + 1) 0 = some (true, t) → sumRc t = size) := by
  obtain ⟨t, ht⟩ := writeAllT_total o size (size + 1) 0 (by omega)
  have hr : readAll o size = writeAll o size := readAllGo_eq_writeAllGo o size 0
  refine ⟨⟨t, ht⟩, ⟨t, ?_⟩, fun bytes _ => ?_, fun t2 ht2 => ?_⟩
  · rw [readAllT_eq_writeAllT, hr]
    exact ht
  · by_cases hrc : o bytes (size - bytes) ≤ 0
    · exact Or.inl hrc
    · exact Or.inr (by omega)
  · have := writeAllT_true_exact o size ho (size + 1) 0 (true, t2) (by omega) ht2 rfl
    simpa using this

/-- Closed instance of `readAll_writeAll_termination` at an oracle always
transferring the full request. -/
theorem readAll_writeAll_termination_witness :
    (∃ t, writeAllT (fun _ req => (req : Int)) 3 4 0 =
      some (writeAll (fun _ req => (req : Int)) 3, t)) ∧
    (∃ t, readAllT (fun _ req => (req : Int)) 3 4 0 =
      some (readAll (fun _ req => (req : Int)) 3, t)) ∧
    (∀ bytes, bytes < 3 → (fun (_ req : Nat) => (req : Int)) bytes (3 - bytes) ≤ 0 ∨
      bytes < bytes + ((fun (_ req : Nat) => (req : Int)) bytes (3 - bytes)).toNat) ∧
    (∀ t, writeAllT (fun _ req => (req : Int)) 3 4 0 = some (true, t) → sumRc t = 3) :=
  readAll_writeAll_termination (fun _ req => (req : Int)) 3 (fun _ _ => le_refl _)

/-! ### C6 / C7 — printSize formatting -/

theorem printSizeUnit_none (name : List Char) (bin n : Nat)
    (h1 : n < 100 * bin % U64_MOD) (h2 : n < 10 * bin % U64_MOD)
    (h3 : n < 1000 * (bin / KiB) % U64_MOD) : printSizeUnit name bin n = none := by
  unfold printSizeUnit
  rw [if_neg (by omega), if_neg (by omega), if_neg (by omega)]

theorem printSizeUnit_none_lt {name : List Char} {bin n : Nat}
    (h : printSizeUnit name bin n = none) : n < 1000 * (bin / KiB) % U64_MOD := by
  unfold printSizeUnit at h
  split_ifs at h with h1 h2 h3
  · omega

theorem printSizeUnit_suffix {name : List Char} {bin n : Nat} {out : List Char}
    (h : printSizeUnit name bin n = some out) : ∃ pre, out = pre ++ name := by
  unfold printSizeUnit at h
  split_ifs at h with h1 h2 h3
  · exact ⟨natRepr (n / bin), (Option.some.inj h).symm⟩
  · refine ⟨natRepr (n / bin) ++ '.' ::
      natRepr ((n - n / bin * bin) * 10 % U64_MOD / bin), ?_⟩
    rw [← Option.some.inj h]
  · refine ⟨natRepr (n / bin) ++ '.' ::
      pad2 ((n - n / bin * bin) * 100 % U64_MOD / bin), ?_⟩
    rw [← Option.some.inj h]

theorem printSizeUnit_branch1 (name : List Char) (bin n : Nat)
    (h1 : 100 * bin % U64_MOD ≤ n) :
    printSizeUnit name bin n = some (natRepr (n / bin) ++ name) := by
  unfold printSizeUnit
  rw [if_pos h1]

theorem printSizeUnit_branch2 (name : List Char) (bin n : Nat)
    (h1 : ¬ 100 * bin % U64_MOD ≤ n) (h2 : 10 * bin % U64_MOD ≤ n) :
    printSizeUnit name bin n = some (natRepr (n / bin) ++ '.' ::
      natRepr ((n - n / bin * bin) * 10 % U64_MOD / bin) ++ name) := by
  unfold printSizeUnit
  rw [if_neg h1, if_pos h2]

theorem printSizeUnit_branch3 (name : List Char) (bin n : Nat)
    (h1 : ¬ 100 * bin % U64_MOD ≤ n) (h2 : ¬ 10 * bin % U64_MOD ≤ n)
    (h3 : 1000 * (bin / KiB) % U64_MOD ≤ n) :
    printSizeUnit name bin n = some (natRepr (n / bin) ++ '.' ::
      pad2 ((n - n / bin * bin) * 100 % U64_MOD / bin) ++ name) := by
  unfold printSizeUnit
  rw [if_neg h1, if_neg h2, if_pos h3]

theorem frac_eq_mod (n bin : Nat) : n - n / bin * bin = n % bin := by
  rw [Nat.mul_comm (n / bin) bin]
  have h := Nat.div_add_mod n bin
  omega

theorem fracDigitCount_no_dot {l : List Char} (h : '.' ∉ l) : fracDigitCount l = 0 := by
  unfold fracDigitCount
  rw [if_neg h]

theorem fracDigitCount_dot (a b : List Char) (h : '.' ∉ b) :
    fracDigitCount (a ++ '.' :: b) = (b.takeWhile Char.isDigit).length := by
  unfold fracDigitCount
  rw [if_pos (by simp)]
  have hrev : (a ++ '.' :: b).reverse = b.reverse ++ '.' :: a.reverse := by simp
  rw [hrev, takeWhile_append_stop a.reverse
    (fun x hx => by
      simp only [decide_eq_true_eq]
      rintro rfl
      exact h (List.mem_reverse.mp hx)) (by decide),
    List.reverse_reverse]

theorem pad2_two (m : Nat) (hm : m < 100) :
    ∃ d1 d2, pad2 m = [d1, d2] ∧ d1.isDigit = true ∧ d2.isDigit = true := by
  unfold pad2
  by_cases h : m < 10
  · rw [if_pos h, natRepr_eq, if_pos h]
    exact ⟨'0', Nat.digitChar m, rfl, by decide, digitChar_isDigit m h⟩
  · rw [if_neg h, natRepr_eq, if_neg h, natRepr_eq, if_pos (by omega)]
    exact ⟨Nat.digitChar (m / 10), Nat.digitChar (m % 10), rfl,
      digitChar_isDigit _ (by omega), digitChar_isDigit _ (Nat.mod_lt _ (by omega))⟩

theorem natRepr_single (d : Nat) (h : d < 10) : natRepr d = [Nat.digitChar d] := by
  rw [natRepr_eq, if_pos h]

theorem natRepr_no_dot (n : Nat) : '.' ∉ natRepr n := by
  intro hmem
  exact (isDigit_ne '.' (natRepr_digits n '.' hmem)).2.2.1 rfl

/-- Fractional-digit count of the three branch shapes of `printSizeUnit`,
for a unit name that starts with a non-digit and contains no dot. -/
theorem fracDigitCount_branch1 (w : Nat) (name : List Char) (hnd : '.' ∉ name) :
    fracDigitCount (natRepr w ++ name) = 0 := by
  apply fracDigitCount_no_dot
  intro hmem
  rcases List.mem_append.mp hmem with hl | hr
  · exact natRepr_no_dot w hl
  · exact hnd hr

theorem fracDigitCount_branch2 (w d : Nat) (hd : d < 10) (c : Char) (rest : List Char)
    (hcd : c.isDigit = false) (hnd : '.' ∉ c :: rest) :
    fracDigitCount (natRepr w ++ '.' :: natRepr d ++ (c :: rest)) = 1 := by
  rw [natRepr_single d hd]
  have hb : '.' ∉ (Nat.digitChar d :: (c :: rest)) := by
    intro hmem
    rcases List.mem_cons.mp hmem with hX | hX
    · exact absurd (digitChar_isDigit d hd) (by rw [← hX]; decide)
    · exact hnd hX
  have hform : natRepr w ++ ('.' :: [Nat.digitChar d]) ++ (c :: rest) =
      natRepr w ++ '.' :: (Nat.digitChar d :: (c :: rest)) := by simp
  rw [hform, fracDigitCount_dot (natRepr w) (Nat.digitChar d :: (c :: rest)) hb]
  rw [show (Nat.digitChar d :: (c :: rest)).takeWhile Char.isDigit =
      Nat.digitChar d :: (c :: rest).takeWhile Char.isDigit from by
    rw [List.takeWhile_cons, if_pos (digitChar_isDigit d hd)],
    List.takeWhile_cons, if_neg (by rw [hcd]; exact Bool.false_ne_true)]
  rfl

theorem fracDigitCount_branch3 (w m : Nat) (hm : m < 100) (c : Char) (rest : List Char)
    (hcd : c.isDigit = false) (hnd : '.' ∉ c :: rest) :
    fracDigitCount (natRepr w ++ '.' :: pad2 m ++ (c :: rest)) = 2 := by
  obtain ⟨d1, d2, hp, hd1, hd2⟩ := pad2_two m hm
  rw [hp]
  have hb : '.' ∉ (d1 :: d2 :: (c :: rest)) := by
    intro hmem
    rcases List.mem_cons.mp hmem with hX | hX
    · exact absurd hd1 (by rw [← hX]; decide)
    rcases List.mem_cons.mp hX with hX2 | hX2
    · exact absurd hd2 (by rw [← hX2]; decide)
    · exact hnd hX2
  have hform : natRepr w ++ ('.' :: [d1, d2]) ++ (c :: rest) =
      natRepr w ++ '.' :: (d1 :: d2 :: (c :: rest)) := by simp
  rw [hform, fracDigitCount_dot (natRepr w) (d1 :: d2 :: (c :: rest)) hb]
  rw [show (d1 :: d2 :: (c :: rest)).takeWhile Char.isDigit =
      d1 :: d2 :: (c :: rest).takeWhile Char.isDigit from by
    rw [List.takeWhile_cons, if_pos hd1, List.takeWhile_cons, if_pos hd2],
    List.takeWhile_cons, if_neg (by rw [hcd]; exact Bool.false_ne_true)]
  rfl

/-- C6: sizes below 1000 print as the bare decimal number (digits only, no
unit suffix); sizes of at least 1000 print with one of the binary-unit
suffixes KiB..EiB. -/
theorem printSize_spec (n : Nat) :
    (n < 1000 → printSize n = natRepr n ∧ ∀ c ∈ printSize n, c.isDigit = true) ∧
    (1000 ≤ n → ∃ u ∈ ["KiB".data, "MiB".data, "GiB".data, "TiB".data, "PiB".data,
      "EiB".data], ∃ pre, printSize n = pre ++ u) := by
  constructor
  · intro hn
    have hE : printSizeUnit "EiB".data EiB n = none :=
      printSizeUnit_none _ _ _ (by simp [EiB, PiB, TiB, GiB, MiB, KiB, U64_MOD]; omega)
        (by simp [EiB, PiB, TiB, GiB, MiB, KiB, U64_MOD]; omega)
        (by simp [EiB, PiB, TiB, GiB, MiB, KiB, U64_MOD]; omega)
    have hP : printSizeUnit "PiB".data PiB n = none :=
      printSizeUnit_none _ _ _ (by simp [PiB, TiB, GiB, MiB, KiB, U64_MOD]; omega)
        (by simp [PiB, TiB, GiB, MiB, KiB, U64_MOD]; omega)
        (by simp [PiB, TiB, GiB, MiB, KiB, U64_MOD]; omega)
    have hT : printSizeUnit "TiB".data TiB n = none :=
      printSizeUnit_none _ _ _ (by simp [TiB, GiB, MiB, KiB, U64_MOD]; omega)
        (by simp [TiB, GiB, MiB, KiB, U64_MOD]; omega)
        (by simp [TiB, GiB, MiB, KiB, U64_MOD]; omega)
    have hG : printSizeUnit "GiB".data GiB n = none :=
      printSizeUnit_none _ _ _ (by simp [GiB, MiB, KiB, U64_MOD]; omega)
        (by simp [GiB, MiB, KiB, U64_MOD]; omega)
        (by simp [GiB, MiB, KiB, U64_MOD]; omega)
    have hM : printSizeUnit "MiB".data MiB n = none :=
      printSizeUnit_none _ _ _ (by simp [MiB, KiB, U64_MOD]; omega)
        (by simp [MiB, KiB, U64_MOD]; omega)
        (by simp [MiB, KiB, U64_MOD]; omega)
    have hK : printSizeUnit "KiB".data KiB n = none :=
      printSizeUnit_none _ _ _ (by simp [KiB, U64_MOD]; omega)
        (by simp [KiB, U64_MOD]; omega)
        (by simp [KiB, U64_MOD]; omega)
    have hps : printSize n = natRepr n := by
      simp only [printSize, hE, hP, hT, hG, hM, hK]
    exact ⟨hps, by rw [hps]; exact natRepr_digits n⟩
  · intro hn
    cases hE : printSizeUnit "EiB".data EiB n with
    | some s =>
      obtain ⟨pre, hpre⟩ := printSizeUnit_suffix hE
      exact ⟨"EiB".data, by simp, pre, by simp only [printSize, hE]; exact hpre⟩
    | none =>
    cases hP : printSizeUnit "PiB".data PiB n with
    | some s =>
      obtain ⟨pre, hpre⟩ := printSizeUnit_suffix hP
      exact ⟨"PiB".data, by simp, pre, by simp only [printSize, hE, hP]; exact hpre⟩
    | none =>
    cases hT : printSizeUnit "TiB".data TiB n with
    | some s =>
      obtain ⟨pre, hpre⟩ := printSizeUnit_suffix hT
      exact ⟨"TiB".data, by simp, pre, by simp only [printSize, hE, hP, hT]; exact hpre⟩
    | none =>
    cases hG : printSizeUnit "GiB".data GiB n with
    | some s =>
      obtain ⟨pre, hpre⟩ := printSizeUnit_suffix hG
      exact ⟨"GiB".data, by simp, pre, by simp only [printSize, hE, hP, hT, hG]; exact hpre⟩
    | none =>
    cases hM : printSizeUnit "MiB".data MiB n with
    | some s =>
      obtain ⟨pre, hpre⟩ := printSizeUnit_suffix hM
      exact ⟨"MiB".data, by simp, pre,
        by simp only [printSize, hE, hP, hT, hG, hM]; exact hpre⟩
    | none =>
    cases hK : printSizeUnit "KiB".data KiB n with
    | some s =>
      obtain ⟨pre, hpre⟩ := printSizeUnit_suffix hK
      exact ⟨"KiB".data, by simp, pre,
        by simp only [printSize, hE, hP, hT, hG, hM, hK]; exact hpre⟩
    | none =>
      have hlt := printSizeUnit_none_lt hK
      rw [show 1000 * (KiB / KiB) % U64_MOD = 1000 from by decide] at hlt
      omega

/-- Closed instance of `printSize_spec` at 999 and 2048. -/
theorem printSize_spec_witness :
    (printSize 999 = natRepr 999 ∧ ∀ c ∈ printSize 999, c.isDigit = true) ∧
    (∃ u ∈ ["KiB".data, "MiB".data, "GiB".data, "TiB".data, "PiB".data,
      "EiB".data], ∃ pre, printSize 2048 = pre ++ u) :=
  ⟨(printSize_spec 999).1 (by omega), (printSize_spec 2048).2 (by omega)⟩

theorem frac10_lt (bin n : Nat) (hbin : 0 < bin) (hsmall : 10 * bin < U64_MOD) :
    (n - n / bin * bin) * 10 % U64_MOD / bin < 10 := by
  rw [frac_eq_mod]
  have hf : n % bin < bin := Nat.mod_lt _ hbin
  rw [Nat.mod_eq_of_lt (by omega)]
  rw [Nat.div_lt_iff_lt_mul hbin]
  omega

theorem frac100_lt (bin n : Nat) (hbin : 0 < bin) (hsmall : 100 * bin < U64_MOD) :
    (n - n / bin * bin) * 100 % U64_MOD / bin < 100 := by
  rw [frac_eq_mod]
  have hf : n % bin < bin := Nat.mod_lt _ hbin
  rw [Nat.mod_eq_of_lt (by omega)]
  rw [Nat.div_lt_iff_lt_mul hbin]
  omega

theorem frac100_lt_eib (n : Nat) :
    (n - n / EiB * EiB) * 100 % U64_MOD / EiB < 100 := by
  have h1 : (n - n / EiB * EiB) * 100 % U64_MOD < U64_MOD :=
    Nat.mod_lt _ (by norm_num [U64_MOD])
  rw [Nat.div_lt_iff_lt_mul (show 0 < EiB from by norm_num [EiB, PiB, TiB, GiB, MiB, KiB])]
  have h2 : U64_MOD ≤ 100 * EiB := by norm_num [U64_MOD, EiB, PiB, TiB, GiB, MiB, KiB]
  omega

/-- Fractional-digit count produced by one unit of `printSize`, for a unit
whose `100 * bin` and `10 * bin` thresholds do not wrap modulo `2^64`. -/
theorem fracDigitCount_unit (c : Char) (rest : List Char)
    (hcd : c.isDigit = false) (hnd : '.' ∉ c :: rest) (bin n : Nat) (hbin : 0 < bin)
    (h100 : 100 * bin % U64_MOD = 100 * bin) (h10 : 10 * bin % U64_MOD = 10 * bin)
    (hm10 : (n - n / bin * bin) * 10 % U64_MOD / bin < 10)
    (hm100 : (n - n / bin * bin) * 100 % U64_MOD / bin < 100)
    {out : List Char} (h : printSizeUnit (c :: rest) bin n = some out) :
    fracDigitCount out =
      if 100 ≤ n / bin then 0 else if 10 ≤ n / bin then 1 else 2 := by
  unfold printSizeUnit at h
  split_ifs at h with h1 h2 h3
  · obtain rfl := (Option.some.inj h).symm
    rw [fracDigitCount_branch1 _ _ hnd,
      if_pos ((Nat.le_div_iff_mul_le hbin).mpr (by rw [h100] at h1; omega))]
  · obtain rfl := (Option.some.inj h).symm
    rw [fracDigitCount_branch2 _ _ hm10 c rest hcd hnd,
      if_neg (by rw [Nat.le_div_iff_mul_le hbin]; rw [h100] at h1; omega),
      if_pos ((Nat.le_div_iff_mul_le hbin).mpr (by rw [h10] at h2; omega))]
  · obtain rfl := (Option.some.inj h).symm
    rw [fracDigitCount_branch3 _ _ hm100 c rest hcd hnd,
      if_neg (by rw [Nat.le_div_iff_mul_le hbin]; rw [h100] at h1; omega),
      if_neg (by rw [Nat.le_div_iff_mul_le hbin]; rw [h10] at h2; omega)]

/-- C7 (amended): when `printSize` selects a binary unit, the number of
fractional digits follows the whole-unit quotient `size / unit` — none for
a quotient of at least 100, one for 10..99, two otherwise — except that
for the `EiB` unit the `100 * EiB` threshold wraps to `4 * 2^60` in 64-bit
arithmetic, so every size of at least `4 * 2^60` prints with no fractional
digits although its quotient is below 100. -/
theorem printSize_frac_rule (n : Nat) (hn : n < U64_MOD) (name : List Char) (bin : Nat)
    (hsel : selectedUnit n = some (name, bin)) :
    fracDigitCount (printSize n) =
      (if name = "EiB".data ∧ 4611686018427387904 ≤ n then 0
       else if 100 ≤ n / bin then 0 else if 10 ≤ n / bin then 1 else 2) := by
  have hEbin : (0 : Nat) < EiB := by norm_num [EiB, PiB, TiB, GiB, MiB, KiB]
  have h100E : 100 * EiB % U64_MOD = 4611686018427387904 := by decide
  have h10E : 10 * EiB % U64_MOD = 11529215046068469760 := by decide
  have h1000E : 1000 * (EiB / KiB) % U64_MOD = 1125899906842624000 := by decide
  cases hE : printSizeUnit "EiB".data EiB n with
  | some s =>
    simp only [selectedUnit, hE, Option.isSome_some, if_true, Option.some.injEq,
      Prod.mk.injEq] at hsel
    obtain ⟨rfl, rfl⟩ := hsel
    have hps : printSize n = s := by simp only [printSize, hE]
    rw [hps]
    by_cases hb1 : (4611686018427387904 : Nat) ≤ n
    · have hout := printSizeUnit_branch1 "EiB".data EiB n (by rw [h100E]; exact hb1)
      rw [hout] at hE
      obtain rfl := Option.some.inj hE
      rw [fracDigitCount_branch1 _ _ (by decide), if_pos ⟨rfl, hb1⟩]
    · have hnb1 : ¬ 100 * EiB % U64_MOD ≤ n := by rw [h100E]; omega
      have hnb2 : ¬ 10 * EiB % U64_MOD ≤ n := by rw [h10E]; omega
      have hb3 : 1000 * (EiB / KiB) % U64_MOD ≤ n := by
        by_contra hX
        rw [printSizeUnit_none "EiB".data EiB n (by omega) (by omega) (by omega)] at hE
        exact absurd hE (by simp)
      have hout := printSizeUnit_branch3 "EiB".data EiB n hnb1 hnb2 hb3
      rw [hout] at hE
      obtain rfl := Option.some.inj hE
      have hq : n / EiB < 10 := by
        rw [Nat.div_lt_iff_lt_mul hEbin]
        have : (4611686018427387904 : Nat) ≤ 10 * EiB := by
          norm_num [EiB, PiB, TiB, GiB, MiB, KiB]
        omega
      rw [show ("EiB".data : List Char) = 'E' :: ['i', 'B'] from rfl,
        fracDigitCount_branch3 _ _ (frac100_lt_eib n) 'E' ['i', 'B'] (by decide) (by decide),
        if_neg (by rintro ⟨-, hX⟩; omega), if_neg (by omega), if_neg (by omega)]
  | none =>
  cases hP : printSizeUnit "PiB".data PiB n with
  | some s =>
    simp only [selectedUnit, hE, hP, Option.isSome_none, Option.isSome_some, if_true,
      Bool.false_eq_true, if_false, Option.some.injEq, Prod.mk.injEq] at hsel
    obtain ⟨rfl, rfl⟩ := hsel
    have hps : printSize n = s := by simp only [printSize, hE, hP]
    rw [hps, if_neg (show ¬ ("PiB".data = "EiB".data ∧ (4611686018427387904 : Nat) ≤ n) from
      by rintro ⟨hX, -⟩; revert hX; decide)]
    exact fracDigitCount_unit 'P' ['i', 'B'] (by decide) (by decide) PiB n
      (by norm_num [PiB, TiB, GiB, MiB, KiB])
      (by decide) (by decide)
      (frac10_lt PiB n (by norm_num [PiB, TiB, GiB, MiB, KiB]) (by decide))
      (frac100_lt PiB n (by norm_num [PiB, TiB, GiB, MiB, KiB]) (by decide)) hP
  | none =>
  cases hT : printSizeUnit "TiB".data TiB n with
  | some s =>
    simp only [selectedUnit, hE, hP, hT, Option.isSome_none, Option.isSome_some, if_true,
      Bool.false_eq_true, if_false, Option.some.injEq, Prod.mk.injEq] at hsel
    obtain ⟨rfl, rfl⟩ := hsel
    have hps : printSize n = s := by simp only [printSize, hE, hP, hT]
    rw [hps, if_neg (show ¬ ("TiB".data = "EiB".data ∧ (4611686018427387904 : Nat) ≤ n) from
      by rintro ⟨hX, -⟩; revert hX; decide)]
    exact fracDigitCount_unit 'T' ['i', 'B'] (by decide) (by decide) TiB n
      (by norm_num [TiB, GiB, MiB, KiB])
      (by decide) (by decide)
      (frac10_lt TiB n (by norm_num [TiB, GiB, MiB, KiB]) (by decide))
      (frac100_lt TiB n (by norm_num [TiB, GiB, MiB, KiB]) (by decide)) hT
  | none =>
  cases hG : printSizeUnit "GiB".data GiB n with
  | some s =>
    simp only [selectedUnit, hE, hP, hT, hG, Option.isSome_none, Option.isSome_some, if_true,
      Bool.false_eq_true, if_false, Option.some.injEq, Prod.mk.injEq] at hsel
    obtain ⟨rfl, rfl⟩ := hsel
    have hps : printSize n = s := by simp only [printSize, hE, hP, hT, hG]
    rw [hps, if_neg (show ¬ ("GiB".data = "EiB".data ∧ (4611686018427387904 : Nat) ≤ n) from
      by rintro ⟨hX, -⟩; revert hX; decide)]
    exact fracDigitCount_unit 'G' ['i', 'B'] (by decide) (by decide) GiB n
      (by norm_num [GiB, MiB, KiB])
      (by decide) (by decide)
      (frac10_lt GiB n (by norm_num [GiB, MiB, KiB]) (by decide))
      (frac100_lt GiB n (by norm_num [GiB, MiB, KiB]) (by decide)) hG
  | none =>
  cases hM : printSizeUnit "MiB".data MiB n with
  | some s =>
    simp only [selectedUnit, hE, hP, hT, hG, hM, Option.isSome_none, Option.isSome_some,
      if_true, Bool.false_eq_true, if_false, Option.some.injEq, Prod.mk.injEq] at hsel
    obtain ⟨rfl, rfl⟩ := hsel
    have hps : printSize n = s := by simp only [printSize, hE, hP, hT, hG, hM]
    rw [hps, if_neg (show ¬ ("MiB".data = "EiB".data ∧ (4611686018427387904 : Nat) ≤ n) from
      by rintro ⟨hX, -⟩; revert hX; decide)]
    exact fracDigitCount_unit 'M' ['i', 'B'] (by decide) (by decide) MiB n
      (by norm_num [MiB, KiB])
      (by decide) (by decide)
      (frac10_lt MiB n (by norm_num [MiB, KiB]) (by decide))
      (frac100_lt MiB n (by norm_num [MiB, KiB]) (by decide)) hM
  | none =>
  cases hK : printSizeUnit "KiB".data KiB n with
  | some s =>
    simp only [selectedUnit, hE, hP, hT, hG, hM, hK, Option.isSome_none, Option.isSome_some,
      if_true, Bool.false_eq_true, if_false, Option.some.injEq, Prod.mk.injEq] at hsel
    obtain ⟨rfl, rfl⟩ := hsel
    have hps : printSize n = s := by simp only [printSize, hE, hP, hT, hG, hM, hK]
    rw [hps, if_neg (show ¬ ("KiB".data = "EiB".data ∧ (4611686018427387904 : Nat) ≤ n) from
      by rintro ⟨hX, -⟩; revert hX; decide)]
    exact fracDigitCount_unit 'K' ['i', 'B'] (by decide) (by decide) KiB n
      (by norm_num [KiB])
      (by decide) (by decide)
      (frac10_lt KiB n (by norm_num [KiB]) (by decide))
      (frac100_lt KiB n (by norm_num [KiB]) (by decide)) hK
  | none =>
    simp only [selectedUnit, hE, hP, hT, hG, hM, hK, Option.isSome_none,
      Bool.false_eq_true, if_false] at hsel
    exact absurd hsel (by simp)

/-- Counterexample to C7 as stated: at 4·2^60 the selected unit is EiB and
the quotient is 4, so the claim demands two fractional digits, but the
wrapped `100 * EiB` threshold makes the code print none ("4EiB"). -/
theorem printSize_frac_rule_cex :
    selectedUnit 4611686018427387904 = some ("EiB".data, EiB) ∧
    4611686018427387904 / EiB = 4 ∧ (4 : Nat) < 10 ∧
    fracDigitCount (printSize 4611686018427387904) = 0 ∧
    ¬ fracDigitCount (printSize 4611686018427387904) = 2 := by
  refine ⟨?_, ?_, ?_, ?_, ?_⟩ <;> decide

/-- Closed instance of `printSize_frac_rule` at 2048 (KiB, quotient 2, two
fractional digits). -/
theorem printSize_frac_rule_witness :
    fracDigitCount (printSize 2048) =
      (if "KiB".data = "EiB".data ∧ 4611686018427387904 ≤ 2048 then 0
       else if 100 ≤ 2048 / KiB then 0 else if 10 ≤ 2048 / KiB then 1 else 2) :=
  printSize_frac_rule 2048 (by norm_num [U64_MOD]) "KiB".data KiB (by decide)

end Ftpd
